import Mathlib

/-!
# tcp_sandbox: a shallow embedding of the tenant runtime

The Go program keeps a registry of tenants keyed by port, binds one TCP
listener per tenant, runs a byte-framing loop on every accepted connection,
forwards each decoded message over HTTP and accepts partial updates of the
registry over a REST endpoint.

Conventions of the embedding:

* a `byte` is a `Nat` (values below 256 are the ones Go can produce);
* the `uint64` counters are `Nat` with every addition reduced `% 2 ^ 64`,
  as `atomic.AddUint64` does;
* a Go `map[string]T` is an association list read through `GoMap.get`;
  `range` visits every key once, in list order;
* pointers to tenant records are replaced by the record stored at its port;
* the outside world (socket reads and writes, `net.Listen`, the file system,
  the HTTP client) is a parameter of the function that uses it;
* `sync.Mutex` is a flag: `Lock` on a mutex the running task already holds
  never returns.
-/

namespace TcpSandbox

/-! ## domain -/

/-- A `net.Conn`, identified by a handle. -/
structure Conn where
  id : Nat
deriving DecidableEq, Repr

/-- A `net.Listener`, identified by a handle. -/
structure Listener where
  id : Nat
deriving DecidableEq, Repr

/-- The struct `domain.OAuthCredentials`; `TokenExpiry` is an instant in
nanoseconds. -/
structure OAuthCredentials where
  ClientID : String
  ClientSecret : String
  TokenURL : String
  Scopes : List String
  AccessToken : String
  TokenType : String
  TokenExpiry : Int
deriving DecidableEq, Repr

/-- The struct `domain.Tenant` (`ConnectionsLock` guards `Connections` and has
no sequential content). -/
structure Tenant where
  Name : String
  Port : String
  Comment : String
  StartByte : Nat
  EndByte : Nat
  BytesReceived : Nat
  BytesSent : Nat
  Errors : Nat
  SimpleAuthToken : String
  OAuthCredentials : OAuthCredentials
  KeepAliveIntervalSec : Int
  KeepAliveFile : String
  Connections : List Conn
  MessageFormat : String
  Endpoint : String
  Remove : Bool
deriving DecidableEq, Repr

/-- The zero value of `OAuthCredentials`. -/
def OAuthCredentials.zero : OAuthCredentials :=
  ⟨"", "", "", [], "", "", 0⟩

/-- The zero value of `Tenant`, what `json.Unmarshal` starts from. -/
def Tenant.zero : Tenant :=
  { Name := "", Port := "", Comment := "", StartByte := 0, EndByte := 0,
    BytesReceived := 0, BytesSent := 0, Errors := 0, SimpleAuthToken := "",
    OAuthCredentials := OAuthCredentials.zero, KeepAliveIntervalSec := 0,
    KeepAliveFile := "", Connections := [], MessageFormat := "", Endpoint := "",
    Remove := false }

/-- Wrap-around of `uint64` arithmetic. -/
def u64 (n : Nat) : Nat := n % 2 ^ 64

/-! ## service/utilities.go -/

/-- The function `addConnection`. -/
def addConnection (t : Tenant) (conn : Conn) : Tenant :=
  { t with Connections := t.Connections ++ [conn] }

/-- The function `removeConnection`: rebuilds the list without `conn`. -/
def removeConnection (t : Tenant) (conn : Conn) : Tenant :=
  { t with Connections := t.Connections.filter (fun c => decide (c ≠ conn)) }

/-- The function `logError`: `atomic.AddUint64(&t.Errors, 1)` (the log line has
no effect on the state). -/
def logError (t : Tenant) : Tenant :=
  { t with Errors := u64 (t.Errors + 1) }

/-! ## service/connectionsService.go: handleConnection -/

/-- Outcome of one `reader.ReadByte()`. -/
inductive ReadResult where
  | byte (b : Nat)
  | eof
  | error
deriving DecidableEq, Repr

/-- Outcome `(n, writeErr)` of one `conn.Write`. -/
structure WriteResult where
  n : Nat
  failed : Bool
deriving DecidableEq, Repr

/-- The behaviour of the socket on writes: the outcome of the `i`-th write
of the handler, given the bytes written. -/
abbrev WriteOracle := Nat → List Nat → WriteResult

/-- A socket whose writes all succeed in full. -/
def fullWrite : WriteOracle := fun _ data => ⟨data.length, false⟩

/-- The local state of `handleConnection` together with its observable
effects: the tenant record it updates, the messages handed to
`go handleCompleteMessage`, and the byte strings passed to `conn.Write`. -/
structure ConnState where
  t : Tenant
  buffer : List Nat
  inMessage : Bool
  dispatched : List (List Nat)
  written : List (List Nat)
  closed : Bool
deriving DecidableEq, Repr

/-- State on entry of the loop: `var buffer []byte`, `inMessage := false`. -/
def initConn (t : Tenant) : ConnState :=
  { t := t, buffer := [], inMessage := false, dispatched := [], written := [],
    closed := false }

/-- One iteration of the `for` loop of `handleConnection` after a successful
read of `b`. -/
def handleByte (w : WriteOracle) (s : ConnState) (b : Nat) : ConnState :=
  let t1 := { s.t with BytesReceived := u64 (s.t.BytesReceived + 1) }
  if b = t1.StartByte then
    { s with t := t1, buffer := [], inMessage := true }
  else if b = t1.EndByte then
    if s.inMessage then
      let message := s.buffer
      let response := [t1.StartByte] ++ (s.buffer ++ [t1.EndByte])
      let r := w s.written.length response
      let t2 := if r.failed then logError t1
                else { t1 with BytesSent := u64 (t1.BytesSent + u64 r.n) }
      { s with t := t2, inMessage := false,
               dispatched := s.dispatched ++ [message],
               written := s.written ++ [response] }
    else
      { s with t := t1 }
  else
    if s.inMessage then
      { s with t := t1, buffer := s.buffer ++ [b] }
    else
      { s with t := t1 }

/-- The loop of `handleConnection` over successfully read bytes. -/
def runBytes (w : WriteOracle) (s : ConnState) (bs : List Nat) : ConnState :=
  bs.foldl (handleByte w) s

/-- The `for` loop of `handleConnection` over the outcomes of its reads. The
loop returns at the first failed read; `none` means that the reads given were
all successful, so that the loop is still waiting for the next one. -/
def connLoop (w : WriteOracle) : ConnState → List ReadResult → Option ConnState
  | _, [] => none
  | s, ReadResult.eof :: _ => some s
  | s, ReadResult.error :: _ => some { s with t := logError s.t }
  | s, ReadResult.byte b :: rest => connLoop w (handleByte w s b) rest

/-- The function `handleConnection`: the loop, then the deferred
`removeConnection(t, conn)` and `conn.Close()`. -/
def handleConnection (w : WriteOracle) (conn : Conn) (t : Tenant)
    (reads : List ReadResult) : Option ConnState :=
  (connLoop w (initConn t) reads).map
    (fun s => { s with t := removeConnection s.t conn, closed := true })

/-! ## globals: the two maps and their lock -/

/-- A Go `map[string]α`. Only `get` reads it, so the order of the entries and
entries shadowed by an earlier one with the same key have no meaning. -/
structure GoMap (α : Type) where
  entries : List (String × α)
deriving DecidableEq, Repr

namespace GoMap

variable {α : Type}

/-- Lookup in a list of entries. -/
def find : List (String × α) → String → Option α
  | [], _ => none
  | (k, v) :: rest, key => if k = key then some v else find rest key

/-- The map without entries. -/
def empty : GoMap α := ⟨[]⟩

/-- The expression `m[k]` with its `ok` flag. -/
def get (m : GoMap α) (k : String) : Option α := find m.entries k

/-- The entries whose key is not `key`. -/
def erase : List (String × α) → String → List (String × α)
  | [], _ => []
  | (k, v) :: rest, key => if k = key then erase rest key else (k, v) :: erase rest key

/-- The statement `delete(m, k)`. -/
def delete (m : GoMap α) (k : String) : GoMap α := ⟨erase m.entries k⟩

/-- The statement `m[k] = v`. -/
def set (m : GoMap α) (k : String) (v : α) : GoMap α :=
  ⟨(k, v) :: (m.delete k).entries⟩

/-- The keys a `range` over the map visits, each once. -/
def keys (m : GoMap α) : List String := (m.entries.map Prod.fst).dedup

end GoMap

/-- The package `globals` (`Tenants`, `Listeners`, `TenantsLock`) together with
what the registry operations do to the outside world: `lockHeld` says that the
running task holds `TenantsLock`; `closedListeners` lists the listeners on
which `Close` was called, `listenCalls` the ports passed to `net.Listen`,
`keepAlive` the ports whose keep-alive goroutine was started, `acceptLoops`
the ports whose accept goroutine was started, and `closedConns` the
connections on which a registry operation called `Close` (the only
`conn.Close()` of the program is the deferred one of `handleConnection`). -/
structure Registry where
  Tenants : GoMap Tenant
  Listeners : GoMap Listener
  lockHeld : Bool
  closedListeners : List Listener
  listenCalls : List String
  keepAlive : List String
  acceptLoops : List String
  closedConns : List Conn
deriving DecidableEq, Repr

/-- The state at program start. -/
def Registry.init : Registry :=
  { Tenants := GoMap.empty, Listeners := GoMap.empty, lockHeld := false,
    closedListeners := [], listenCalls := [], keepAlive := [], acceptLoops := [],
    closedConns := [] }

/-- Result of a function that takes `TenantsLock`: it returns a value, or it
waits forever for a mutex that the task itself holds. -/
inductive Run (α : Type) where
  | done (a : α) (s : Registry)
  | deadlock (s : Registry)
deriving Repr

/-- The behaviour of `net.Listen`: the outcome of the `i`-th call, for the
port given; `none` is a bind error. -/
abbrev ListenOracle := Nat → String → Option Listener

/-! ## service/routines.go -/

/-- The guard of `StartKeepAliveRoutine`: the routine is started unless
`KeepAliveIntervalSec <= 0 || KeepAliveFile == ""`. -/
def keepAliveConfigured (t : Tenant) : Bool :=
  !(decide (t.KeepAliveIntervalSec ≤ 0) || decide (t.KeepAliveFile = ""))

/-- The function `StartKeepAliveRoutine`, for the tenant stored at `port`. -/
def StartKeepAliveRoutine (s : Registry) (port : String) (t : Tenant) : Registry :=
  if keepAliveConfigured t then { s with keepAlive := s.keepAlive ++ [port] } else s

/-! ## service/tenantService.go -/

/-- The function `StopTenantListener`. -/
def StopTenantListener (s : Registry) (port : String) : Registry :=
  match s.Listeners.get port with
  | none => s
  | some ln =>
    { s with closedListeners := s.closedListeners ++ [ln],
             Listeners := s.Listeners.delete port }

/-- The function `startTenantListener`; its error is only logged by its
callers, and is visible here as `Listeners` being unchanged. -/
def startTenantListener (listen : ListenOracle) (s : Registry) (port : String)
    (t : Tenant) : Registry :=
  let s1 := { s with listenCalls := s.listenCalls ++ [port] }
  match listen s.listenCalls.length port with
  | none => s1
  | some ln =>
    let s2 := { s1 with Listeners := s1.Listeners.set port ln }
    let s3 := StartKeepAliveRoutine s2 port t
    { s3 with acceptLoops := s3.acceptLoops ++ [port] }

/-- Body of the first loop of `SyncListeners`, at key `port`. A key deleted
before it is reached is not produced by `range`. -/
def syncTenant (listen : ListenOracle) (s : Registry) (port : String) : Registry :=
  match s.Tenants.get port with
  | none => s
  | some t =>
    if t.Name = "" then
      let s1 := StopTenantListener s port
      { s1 with Tenants := s1.Tenants.delete port }
    else
      match s.Listeners.get port with
      | some _ => s
      | none => startTenantListener listen s port t

/-- Body of the second loop of `SyncListeners`, at key `port`. -/
def syncListener (s : Registry) (port : String) : Registry :=
  match s.Listeners.get port with
  | none => s
  | some ln =>
    match s.Tenants.get port with
    | some _ => s
    | none =>
      { s with closedListeners := s.closedListeners ++ [ln],
               Listeners := s.Listeners.delete port }

/-- The function `SyncListeners`. -/
def SyncListeners (listen : ListenOracle) (s : Registry) : Registry :=
  let s1 := s.Tenants.keys.foldl (syncTenant listen) s
  s1.Listeners.keys.foldl syncListener s1

/-- Outcome of `os.ReadFile` followed by `json.Unmarshal` into `[]Tenant`. -/
inductive FileContent where
  | unreadable
  | malformed
  | records (fileTenants : List Tenant)
deriving Repr

/-- The `else` branch of the first loop of `LoadTenantsFromFile`: the
configuration of `ft` replaces that of `existing`. -/
def mergeExisting (existing ft : Tenant) : Tenant :=
  { existing with
    Name := ft.Name,
    Comment := ft.Comment,
    StartByte := ft.StartByte,
    EndByte := ft.EndByte,
    SimpleAuthToken := ft.SimpleAuthToken,
    OAuthCredentials :=
      { existing.OAuthCredentials with
        ClientID := ft.OAuthCredentials.ClientID,
        ClientSecret := ft.OAuthCredentials.ClientSecret,
        TokenURL := ft.OAuthCredentials.TokenURL,
        Scopes := ft.OAuthCredentials.Scopes },
    KeepAliveIntervalSec := ft.KeepAliveIntervalSec,
    KeepAliveFile := ft.KeepAliveFile,
    Endpoint := ft.Endpoint }

/-- Body of the first loop of `LoadTenantsFromFile` (`filePorts` is the set
of the ports of the records). -/
def mergeOne (s : Registry) (ft : Tenant) : Registry :=
  match s.Tenants.get ft.Port with
  | none => { s with Tenants := s.Tenants.set ft.Port ft }
  | some existing =>
    { s with Tenants := s.Tenants.set ft.Port (mergeExisting existing ft) }

/-- Body of the loop "Mark removals" of `LoadTenantsFromFile`. -/
def markRemoved (filePorts : List String) (s : Registry) (port : String) : Registry :=
  if port ∈ filePorts then s
  else
    match s.Tenants.get port with
    | none => s
    | some t => { s with Tenants := s.Tenants.set port { t with Name := "" } }

/-- The two loops of `LoadTenantsFromFile`, which run with the lock held. -/
def mergeTenants (s : Registry) (fileTenants : List Tenant) : Registry :=
  let s1 := fileTenants.foldl mergeOne s
  s1.Tenants.keys.foldl (markRemoved (fileTenants.map Tenant.Port)) s1

/-- The function `LoadTenantsFromFile`; the value returned is its error, if
any. -/
def LoadTenantsFromFile (file : FileContent) (s : Registry) : Run (Option String) :=
  match file with
  | FileContent.unreadable => Run.done (some "read error") s
  | FileContent.malformed => Run.done (some "json unmarshal error") s
  | FileContent.records fileTenants =>
    if s.lockHeld then Run.deadlock s
    else
      let s1 := mergeTenants { s with lockHeld := true } fileTenants
      Run.done none { s1 with lockHeld := false }

/-- The behaviour of `json.MarshalIndent` followed by `os.WriteFile` on the
records to store: `true` when both succeed. -/
abbrev StoreOracle := List Tenant → Bool

/-- The function `SaveTenantsToFile`: it takes `TenantsLock` itself. -/
def SaveTenantsToFile (store : StoreOracle) (s : Registry) : Run (Option String) :=
  if s.lockHeld then Run.deadlock s
  else
    let out := s.Tenants.keys.filterMap s.Tenants.get
    Run.done (if store out then none else some "write error") s

/-! ## controller/server.go -/

/-- Outcome of `io.ReadAll` and of the two `json.Unmarshal` calls of
`handlePatchTenants`. -/
inductive PatchBody where
  | unreadable
  | invalid
  | array (patchTenants : List Tenant)
  | object (single : Tenant)
deriving Repr

/-- What `handlePatchTenants` reads of the `http.Request`. -/
structure Request where
  Method : String
  Body : PatchBody
deriving Repr

/-- What `handlePatchTenants` writes to the `http.ResponseWriter`. -/
structure Response where
  status : Nat
  body : String
deriving DecidableEq, Repr

/-- The branch "Patch existing" of `handlePatchTenants`: one conditional
assignment "if `pt.F` is not zero, `existing.F = pt.F`" per field `F`. -/
def patchExisting (existing pt : Tenant) : Tenant :=
  { existing with
    Name := if pt.Name ≠ "" then pt.Name else existing.Name,
    Comment := if pt.Comment ≠ "" then pt.Comment else existing.Comment,
    StartByte := if pt.StartByte ≠ 0 then pt.StartByte else existing.StartByte,
    EndByte := if pt.EndByte ≠ 0 then pt.EndByte else existing.EndByte,
    SimpleAuthToken :=
      if pt.SimpleAuthToken ≠ "" then pt.SimpleAuthToken else existing.SimpleAuthToken,
    OAuthCredentials :=
      { existing.OAuthCredentials with
        ClientID :=
          if pt.OAuthCredentials.ClientID ≠ "" then pt.OAuthCredentials.ClientID
          else existing.OAuthCredentials.ClientID,
        ClientSecret :=
          if pt.OAuthCredentials.ClientSecret ≠ "" then pt.OAuthCredentials.ClientSecret
          else existing.OAuthCredentials.ClientSecret,
        TokenURL :=
          if pt.OAuthCredentials.TokenURL ≠ "" then pt.OAuthCredentials.TokenURL
          else existing.OAuthCredentials.TokenURL,
        Scopes :=
          if pt.OAuthCredentials.Scopes.length > 0 then pt.OAuthCredentials.Scopes
          else existing.OAuthCredentials.Scopes },
    KeepAliveIntervalSec :=
      if pt.KeepAliveIntervalSec ≠ 0 then pt.KeepAliveIntervalSec
      else existing.KeepAliveIntervalSec,
    KeepAliveFile :=
      if pt.KeepAliveFile ≠ "" then pt.KeepAliveFile else existing.KeepAliveFile }

/-- Body of the loop of `handlePatchTenants` over the patch records. -/
def patchOne (s : Registry) (pt : Tenant) : Registry :=
  if pt.Port = "" then s
  else if pt.Remove then
    match s.Tenants.get pt.Port with
    | none => s
    | some _ =>
      let s1 := StopTenantListener s pt.Port
      { s1 with Tenants := s1.Tenants.delete pt.Port }
  else
    match s.Tenants.get pt.Port with
    | none => { s with Tenants := s.Tenants.set pt.Port pt }
    | some existing =>
      { s with Tenants := s.Tenants.set pt.Port (patchExisting existing pt) }

/-- The loop of `handlePatchTenants` over the patch records. -/
def patchLoop (s : Registry) (patchTenants : List Tenant) : Registry :=
  patchTenants.foldl patchOne s

/-- The part of `handlePatchTenants` after the body is parsed: lock, patch
loop, `SyncListeners`, `SaveTenantsToFile`, response; the deferred `Unlock`
runs when the function returns. -/
def patchAndSave (listen : ListenOracle) (store : StoreOracle) (s : Registry)
    (patchTenants : List Tenant) : Run Response :=
  if s.lockHeld then Run.deadlock s
  else
    let s1 := patchLoop { s with lockHeld := true } patchTenants
    let s2 := SyncListeners listen s1
    match SaveTenantsToFile store s2 with
    | Run.deadlock s3 => Run.deadlock s3
    | Run.done (some _) s3 =>
      Run.done ⟨500, "Internal Server Error"⟩ { s3 with lockHeld := false }
    | Run.done none s3 =>
      Run.done ⟨200, "\x7b\"status\":\"ok\"\x7d"⟩ { s3 with lockHeld := false }

/-- The function `handlePatchTenants`. -/
def handlePatchTenants (listen : ListenOracle) (store : StoreOracle) (s : Registry)
    (r : Request) : Run Response :=
  if r.Method ≠ "PATCH" ∧ r.Method ≠ "POST" then
    Run.done ⟨405, "Method not allowed"⟩ s
  else
    match r.Body with
    | PatchBody.unreadable => Run.done ⟨400, "Bad request"⟩ s
    | PatchBody.invalid => Run.done ⟨400, "Invalid JSON"⟩ s
    | PatchBody.array patchTenants => patchAndSave listen store s patchTenants
    | PatchBody.object single => patchAndSave listen store s [single]

/-- One pass of the loop of `StartTenantFileManager` (without the status
report): reload, reconcile, save. -/
def fileManagerTick (listen : ListenOracle) (store : StoreOracle) (file : FileContent)
    (s : Registry) : Run Unit :=
  match LoadTenantsFromFile file s with
  | Run.deadlock s1 => Run.deadlock s1
  | Run.done (some _) s1 => Run.done () s1
  | Run.done none s1 =>
    match SaveTenantsToFile store (SyncListeners listen s1) with
    | Run.deadlock s2 => Run.deadlock s2
    | Run.done _ s2 => Run.done () s2

/-! ## The call sites of `SyncListeners` -/

/-- The state in which `handlePatchTenants` calls `SyncListeners`: after the
lock was taken and the patch loop has run (`none`: the call is not reached). -/
def patchSyncState (s : Registry) (patchTenants : List Tenant) : Option Registry :=
  if s.lockHeld then none
  else some (patchLoop { s with lockHeld := true } patchTenants)

/-- The state in which the loop of `StartTenantFileManager` calls
`SyncListeners`: the one in which `LoadTenantsFromFile` has returned without
error (`none`: the call is not reached). -/
def fileManagerSyncState (file : FileContent) (s : Registry) : Option Registry :=
  match LoadTenantsFromFile file s with
  | Run.done none s1 => some s1
  | _ => none

/-! ## service/connectionsService.go: getOrRefreshToken -/

/-- Nanoseconds of `time.Second`. -/
def second : Int := 1000000000

/-- Nanoseconds of `time.Hour`. -/
def hour : Int := 3600 * second

/-- Wrap-around of `int64` arithmetic (`time.Duration` is an `int64`). -/
def i64 (x : Int) : Int := (x + 2 ^ 63) % 2 ^ 64 - 2 ^ 63

/-- The token request sent to the token endpoint: its URL and its form. -/
structure TokenRequest where
  url : String
  form : List (String × String)
deriving DecidableEq, Repr

/-- The struct `tokenResp` decoded from the body of the response. -/
structure TokenResp where
  AccessToken : String
  ExpiresIn : Int
  TokenType : String
deriving DecidableEq, Repr

/-- Outcome of `client.Do(req)`: a transport error, or a response with its
status code and what `dec.Decode` makes of its body (`none`: it does not
decode). -/
inductive TokenReply where
  | transportError
  | response (status : Int) (body : Option TokenResp)
deriving DecidableEq, Repr

/-- The HTTP side of `getOrRefreshToken`: whether `http.NewRequest` accepts the
URL, and the outcome of the request. -/
structure TokenEndpoint where
  newRequestOk : String → Bool
  send : TokenRequest → TokenReply

/-- The form `data` of `getOrRefreshToken` (`Encode` sorts it by key). -/
def tokenForm (c : OAuthCredentials) : List (String × String) :=
  [("client_id", c.ClientID), ("client_secret", c.ClientSecret),
   ("grant_type", "client_credentials")] ++
  (if c.Scopes.length > 0 then [("scope", " ".intercalate c.Scopes)] else [])

/-- Result of `getOrRefreshToken`: the string and the error returned, the
tenant record afterwards, and the requests sent with `client.Do`. -/
structure TokenResult where
  token : String
  err : Option String
  t : Tenant
  requests : List TokenRequest
deriving DecidableEq, Repr

/-- The function `getOrRefreshToken`, with `now` the value of `time.Now()`. -/
def getOrRefreshToken (http : TokenEndpoint) (now : Int) (t : Tenant) : TokenResult :=
  if t.OAuthCredentials.TokenExpiry > now + 10 * second then
    ⟨t.OAuthCredentials.AccessToken, none, t, []⟩
  else if !http.newRequestOk t.OAuthCredentials.TokenURL then
    ⟨"", some "new request error", t, []⟩
  else
    let req : TokenRequest := ⟨t.OAuthCredentials.TokenURL, tokenForm t.OAuthCredentials⟩
    match http.send req with
    | TokenReply.transportError => ⟨"", some "error requesting new token", t, [req]⟩
    | TokenReply.response status body =>
      if status < 200 ∨ status > 299 then
        ⟨"", some "token endpoint returned status", t, [req]⟩
      else
        match body with
        | none => ⟨"", some "invalid token response", t, [req]⟩
        | some tokenResp =>
          let tokenType := if tokenResp.TokenType ≠ "" then tokenResp.TokenType else "Bearer"
          let expiry :=
            if tokenResp.ExpiresIn > 0 then now + i64 (second * tokenResp.ExpiresIn)
            else now + hour
          let t1 := { t with OAuthCredentials :=
            { t.OAuthCredentials with AccessToken := tokenResp.AccessToken,
                                      TokenType := tokenType,
                                      TokenExpiry := expiry } }
          ⟨tokenResp.AccessToken, none, t1, [req]⟩

/-! ## service/connectionsService.go: handleCompleteMessage -/

/-- The request built by `handleCompleteMessage`: URL, body and headers. -/
structure OutRequest where
  url : String
  body : List Nat
  headers : List (String × String)
deriving DecidableEq, Repr

/-- Outcome of `client.Do(req)` for the forwarded message. -/
inductive PostReply where
  | transportError
  | status (code : Int)
deriving DecidableEq, Repr

/-- The library and network side of `handleCompleteMessage`:
`strings.ToLower`; `json.Marshal` of the map with the keys `tenant` and
`message`, and `xml.Marshal` of the element `Message`, both for a tenant name
and a message (`none`: the marshaller fails); whether `http.NewRequest` accepts
the endpoint URL; the token endpoint; the outcome of the POST. -/
structure Forwarder where
  toLower : String → String
  jsonMarshal : String → List Nat → Option (List Nat)
  xmlMarshal : String → List Nat → Option (List Nat)
  newRequestOk : String → Bool
  token : TokenEndpoint
  post : OutRequest → PostReply

/-- The `switch strings.ToLower(t.MessageFormat)` of `handleCompleteMessage`:
the body and the content type, or `none` when the marshaller fails. -/
def encodeMessage (fw : Forwarder) (t : Tenant) (msg : List Nat) :
    Option (List Nat × String) :=
  let f := fw.toLower t.MessageFormat
  if f = "json" then
    (fw.jsonMarshal t.Name msg).map (fun body => (body, "application/json"))
  else if f = "xml" then
    (fw.xmlMarshal t.Name msg).map (fun body => (body, "application/xml"))
  else if f = "text" then
    some (msg, "text/plain")
  else
    (fw.jsonMarshal t.Name msg).map (fun body => (body, "application/json"))

/-- What `handleCompleteMessage` does: the tenant record afterwards, the token
requests sent and the POSTs sent to the endpoint. -/
structure ForwardResult where
  t : Tenant
  tokenRequests : List TokenRequest
  posts : List OutRequest
deriving DecidableEq, Repr

/-- The end of `handleCompleteMessage`: `client.Do(req)` and the check of the
status. -/
def sendForward (fw : Forwarder) (t : Tenant) (tokenRequests : List TokenRequest)
    (req : OutRequest) : ForwardResult :=
  match fw.post req with
  | PostReply.transportError => ⟨logError t, tokenRequests, [req]⟩
  | PostReply.status code =>
    if code < 200 ∨ code > 299 then ⟨logError t, tokenRequests, [req]⟩
    else ⟨t, tokenRequests, [req]⟩

/-- The function `handleCompleteMessage`, with `now` the value of `time.Now()`
in `getOrRefreshToken`. -/
def handleCompleteMessage (fw : Forwarder) (now : Int) (t : Tenant) (msg : List Nat) :
    ForwardResult :=
  match encodeMessage fw t msg with
  | none => ⟨logError t, [], []⟩
  | some (body, contentType) =>
    if !fw.newRequestOk t.Endpoint then ⟨logError t, [], []⟩
    else if t.SimpleAuthToken ≠ "" then
      sendForward fw t []
        ⟨t.Endpoint, body, [("X-Auth", t.SimpleAuthToken), ("Content-Type", contentType)]⟩
    else
      let r := getOrRefreshToken fw.token now t
      match r.err with
      | some _ => ⟨logError r.t, r.requests, []⟩
      | none =>
        sendForward fw r.t r.requests
          ⟨t.Endpoint, body,
            [("Authorization", r.t.OAuthCredentials.TokenType ++ " " ++ r.token),
             ("Content-Type", contentType)]⟩

/-! ## service/routines.go: sendTenantKeepAlive -/

/-- The `nil` value of the interface `net.Conn`: the handle 0 is kept for
it. -/
def Conn.nil : Conn := ⟨0⟩

/-- The struct `domain.KeepAliveXML` (`XMLName` is the name of the element
read from the file). -/
structure KeepAliveXML where
  XMLName : String
  TenantName : String
  SendTime : String
deriving DecidableEq, Repr

/-- The outside of `sendTenantKeepAlive`: `loadKeepAliveXML` (`none`: the file
is unreadable), `xml.MarshalIndent` (`none`: it fails), the text of
`time.Now().UTC().Format(time.RFC3339)`, and the outcome of the `i`-th
`conn.Write` of the tick, for the connection and the bytes given. -/
structure KeepAliveIO where
  load : String → Option KeepAliveXML
  marshal : KeepAliveXML → Option (List Nat)
  now : String
  write : Nat → Conn → List Nat → WriteResult

/-- What a tick of `sendTenantKeepAlive` does: the tenant record afterwards,
the calls of `saveKeepAliveXML` (their errors are only logged) and the calls of
`conn.Write`, in order. -/
structure KeepAliveResult where
  t : Tenant
  saved : List (String × KeepAliveXML)
  writes : List (Conn × List Nat)
deriving DecidableEq, Repr

/-- The record `ka` of `sendTenantKeepAlive` after the file was loaded (or the
default was made) and the name and the send time were set. -/
def heartbeat (io : KeepAliveIO) (t : Tenant) : KeepAliveXML :=
  let ka : KeepAliveXML :=
    match io.load t.KeepAliveFile with
    | some ka => ka
    | none => ⟨"", t.Name, ""⟩
  { ka with TenantName := t.Name, SendTime := io.now }

/-- Body of the loop of `sendTenantKeepAlive` over `t.Connections`; the state
is the tenant record and the writes made so far. -/
def keepAliveWrite (io : KeepAliveIO) (framed : List Nat)
    (acc : Tenant × List (Conn × List Nat)) (conn : Conn) :
    Tenant × List (Conn × List Nat) :=
  if conn = Conn.nil then acc
  else
    let r := io.write acc.2.length conn framed
    if r.failed then (logError acc.1, acc.2 ++ [(conn, framed)])
    else ({ acc.1 with BytesSent := u64 (acc.1.BytesSent + u64 r.n) },
          acc.2 ++ [(conn, framed)])

/-- The function `sendTenantKeepAlive` for the tenant record `t`; `none` when
it waits forever for `TenantsLock`. -/
def sendTenantKeepAlive (io : KeepAliveIO) (s : Registry) (t : Tenant) :
    Option KeepAliveResult :=
  if s.lockHeld then none
  else
    let ka := heartbeat io t
    let saved := [(t.KeepAliveFile, ka)]
    match io.marshal ka with
    | none => some ⟨t, saved, []⟩
    | some xmlBytes =>
      let framed := [t.StartByte] ++ (xmlBytes ++ [t.EndByte])
      let r := t.Connections.foldl (keepAliveWrite io framed) (t, [])
      some ⟨r.1, saved, r.2⟩

/-- The outcomes of the writes of a tick to the connections `cs`, the first
of which is the `i`-th write. -/
def keepAliveOutcomes (io : KeepAliveIO) (framed : List Nat) :
    Nat → List Conn → List WriteResult
  | _, [] => []
  | i, c :: cs => io.write i c framed :: keepAliveOutcomes io framed (i + 1) cs

/-- Sum of the byte counts of the successful writes. -/
def sentBytes : List WriteResult → Nat
  | [] => 0
  | r :: rs => (if r.failed then 0 else r.n) + sentBytes rs

/-- Number of failed writes. -/
def failedWrites : List WriteResult → Nat
  | [] => 0
  | r :: rs => (if r.failed then 1 else 0) + failedWrites rs

/-! ## Predicates on the registry and sample data -/

/-- A tenant at port `P`, if any, has a name and a listener. -/
def Served (s : Registry) (P : String) : Prop :=
  ∀ t, s.Tenants.get P = some t → t.Name ≠ "" ∧ (s.Listeners.get P).isSome = true

/-- A listener at port `P`, if any, has a tenant. -/
def Owned (s : Registry) (P : String) : Prop :=
  (s.Listeners.get P).isSome = true → (s.Tenants.get P).isSome = true

/-- Port `P` has neither a tenant nor a listener. -/
def Gone (s : Registry) (P : String) : Prop :=
  s.Tenants.get P = none ∧ s.Listeners.get P = none

/-- The tenant at port `P` is marked as removed: its `Name` is empty. -/
def Marked (s : Registry) (P : String) : Prop :=
  ∃ t, s.Tenants.get P = some t ∧ t.Name = ""

/-- Port `P` has a tenant, or it has neither a tenant nor a listener. -/
def LiveOrGone (s : Registry) (P : String) : Prop :=
  (s.Tenants.get P).isSome = true ∨ Gone s P

/-- Listener `ln` is bound at `P` for a tenant, or it has been closed. -/
def BoundOrClosed (s : Registry) (P : String) (ln : Listener) : Prop :=
  (s.Listeners.get P = some ln ∧ (s.Tenants.get P).isSome = true) ∨
    ln ∈ s.closedListeners

/-- The runtime part of `t1` is that of `t`: counters, cached OAuth token and
connections. -/
def SameRuntime (t t1 : Tenant) : Prop :=
  t1.BytesReceived = t.BytesReceived ∧ t1.BytesSent = t.BytesSent ∧
  t1.Errors = t.Errors ∧
  t1.OAuthCredentials.AccessToken = t.OAuthCredentials.AccessToken ∧
  t1.OAuthCredentials.TokenType = t.OAuthCredentials.TokenType ∧
  t1.OAuthCredentials.TokenExpiry = t.OAuthCredentials.TokenExpiry ∧
  t1.Connections = t.Connections

/-- A `net.Listen` that binds every port: the `i`-th call returns listener
`100 + i`. -/
def listenAll : ListenOracle := fun i _ => some ⟨100 + i⟩

/-- A tenant "A" on port 3000 with delimiters 2 and 3. -/
def tenantA : Tenant :=
  { Tenant.zero with Name := "A", Port := "3000", StartByte := 2, EndByte := 3,
                     BytesReceived := 7, MessageFormat := "text",
                     Endpoint := "http://old/" }

/-- A patch record for port 3000 that supplies `MessageFormat` and
`Endpoint`. -/
def patchEndpoint : Tenant :=
  { Tenant.zero with Port := "3000", MessageFormat := "xml", Endpoint := "http://new/" }

/-- A patch record for port 3000 that supplies only `Comment`. -/
def patchComment : Tenant :=
  { Tenant.zero with Port := "3000", Comment := "updated" }

/-- A record without `Port`, as a tenants file may hold it. -/
def tenantNoPort : Tenant :=
  { Tenant.zero with Name := "N", Comment := "old" }

/-- The registry after `LoadTenantsFromFile` has read a file with the one
record `tenantNoPort`, and after its listener was bound. -/
def registryNoPort : Registry :=
  { Registry.init with Tenants := GoMap.empty.set "" tenantNoPort,
                       Listeners := GoMap.empty.set "" ⟨1⟩ }

/-- A patch record that removes the tenant on port 3000. -/
def patchRemove : Tenant :=
  { Tenant.zero with Port := "3000", Remove := true }

/-- A patch record with `Remove = true` and no `Port`. -/
def patchRemoveNoPort : Tenant :=
  { Tenant.zero with Remove := true }

/-- A patch record for port 5000 that supplies nothing else. -/
def patchBare : Tenant :=
  { Tenant.zero with Port := "5000" }

/-- A patch record for a tenant "B" on port 5000. -/
def patchNew : Tenant :=
  { Tenant.zero with Port := "5000", Name := "B" }

/-- A file record for port 3000, with a new name and new delimiters. -/
def fileA : Tenant :=
  { Tenant.zero with Name := "A2", Port := "3000", StartByte := 1, EndByte := 4,
                     Endpoint := "http://new/" }

/-- A file record for port 4000. -/
def fileB : Tenant :=
  { Tenant.zero with Name := "B", Port := "4000", StartByte := 2, EndByte := 3 }

/-- A token endpoint that answers 200 with a token valid for one hour;
`http.NewRequest` rejects the URL ":" (it has no protocol scheme). -/
def tokenServer : TokenEndpoint :=
  { newRequestOk := fun u => u != ":",
    send := fun _ => TokenReply.response 200 (some ⟨"fresh", 3600, ""⟩) }

/-- A tenant whose cached token "cached" expires at instant `expiry`, and
whose token URL is `tokenURL`. -/
def tenantWithToken (tokenURL : String) (expiry : Int) : Tenant :=
  { Tenant.zero with
    Name := "A", Port := "3000",
    OAuthCredentials :=
      { OAuthCredentials.zero with TokenURL := tokenURL, AccessToken := "cached",
                                   TokenType := "Bearer", TokenExpiry := expiry } }

/-- A registry with the tenant "A" on port 3000 and its listener. -/
def registryA : Registry :=
  { Registry.init with Tenants := GoMap.empty.set "3000" tenantA,
                       Listeners := GoMap.empty.set "3000" ⟨1⟩ }

/-! ## Framing, in the words of the specification -/

/-- The bytes after the last occurrence of `S` in `p`; `none` when `S` does
not occur in `p`. -/
def afterLast (S : Nat) : List Nat → Option (List Nat)
  | [] => none
  | b :: r =>
    match afterLast S r with
    | some m => some m
    | none => if b = S then some r else none

/-- The message that is open after the bytes `p` were received, in the words
of the specification: the bytes received after the most recent StartByte `S`,
when no EndByte `E` was received since; `none` when the handler is Idle. -/
def openMessage (S E : Nat) (p : List Nat) : Option (List Nat) :=
  match afterLast S p with
  | some m => if E ∈ m then none else some m
  | none => none

/-- Two states of the framing loop that differ at most in the counters
`BytesSent` and `Errors`. -/
def SameFraming (s1 s2 : ConnState) : Prop :=
  s1.buffer = s2.buffer ∧ s1.inMessage = s2.inMessage ∧
  s1.dispatched = s2.dispatched ∧ s1.written = s2.written ∧
  s1.closed = s2.closed ∧
  { s1.t with BytesSent := 0, Errors := 0 } = { s2.t with BytesSent := 0, Errors := 0 }

/-- A socket on which every write fails after 0 bytes. -/
def failWrite : WriteOracle := fun _ _ => ⟨0, true⟩

/-- A socket on which the first write fails and the later ones succeed. -/
def failFirstWrite : WriteOracle :=
  fun i data => if i = 0 then ⟨0, true⟩ else ⟨data.length, false⟩

/-- Relation between a run `s1` in which the `k`-th echo write failed and a
run `s2` in which it succeeded with `n` bytes: the same framing state, one
more error in `s1`, `n` more bytes sent in `s2`. -/
def EchoOffset (k n : Nat) (s1 s2 : ConnState) : Prop :=
  SameFraming s1 s2 ∧ k < s1.written.length ∧
  s1.t.Errors = u64 (s2.t.Errors + 1) ∧ s2.t.BytesSent = u64 (s1.t.BytesSent + n)

/-- The state of the loop after the bytes `2 9` were read for tenant "A". -/
def inMessageA : ConnState := runBytes fullWrite (initConn tenantA) [2, 9]

/-- Lower case of the letters A to Z, as a sample of `strings.ToLower`. -/
def lowerASCII (s : String) : String := String.mk (s.data.map Char.toLower)

/-- A token endpoint whose answer is not a 2xx status. -/
def tokenServerDown : TokenEndpoint :=
  { newRequestOk := fun u => u != ":",
    send := fun _ => TokenReply.response 503 none }

/-- A token endpoint that answers 200 with `expires_in = 9223372037`. -/
def tokenServerHuge : TokenEndpoint :=
  { newRequestOk := fun u => u != ":",
    send := fun _ => TokenReply.response 200 (some ⟨"fresh", 9223372037, "Bearer"⟩) }

/-- A forwarder with sample marshallers (the body is the message after a
marker byte), whose token endpoint is `token` and whose POSTs are answered
with 200. -/
def forwarderWith (token : TokenEndpoint) : Forwarder :=
  { toLower := lowerASCII,
    jsonMarshal := fun _ msg => some (106 :: msg),
    xmlMarshal := fun _ msg => some (120 :: msg),
    newRequestOk := fun u => u != ":",
    token := token,
    post := fun _ => PostReply.status 200 }

/-- A keep-alive environment without file, whose heartbeat XML is the one
byte 88 and in which the write to connection 5 fails. -/
def keepAliveIO : KeepAliveIO :=
  { load := fun _ => none,
    marshal := fun _ => some [88],
    now := "2026-01-01T00:00:00Z",
    write := fun _ c data => if c = ⟨5⟩ then ⟨0, true⟩ else ⟨data.length, false⟩ }

/-- The tenant "A" with the open connections 5 and 6. -/
def tenantConns : Tenant :=
  { tenantA with Connections := [⟨5⟩, ⟨6⟩] }

/-- A `net.Listen` that binds no port. -/
def listenNone : ListenOracle := fun _ _ => none

/-- A registry with the tenant "A" on port 3000 and no listener. -/
def registryUnbound : Registry :=
  { Registry.init with Tenants := GoMap.empty.set "3000" tenantA }

/-- A registry with the tenant "A" on port 3000, its listener 1 and its open
connections 5 and 6. -/
def registryConns : Registry :=
  { Registry.init with Tenants := GoMap.empty.set "3000" tenantConns,
                       Listeners := GoMap.empty.set "3000" ⟨1⟩ }

/-- The registry `registryConns` after a reload from a file without port
3000: the `Name` of the tenant is cleared. -/
def registryMarked : Registry :=
  { Registry.init with
    Tenants := GoMap.empty.set "3000" { tenantConns with Name := "" },
    Listeners := GoMap.empty.set "3000" ⟨1⟩ }

/-! # Theorems -/

/-! ## Framing -/

theorem u64_add_u64 (a b : Nat) : u64 (u64 a + b) = u64 (a + b) := by
  unfold u64; omega

theorem u64_add_u64_right (a b : Nat) : u64 (a + u64 b) = u64 (a + b) := by
  unfold u64; omega

/-- Bytes that are no delimiter and arrive inside a message are appended to the
buffer; only `BytesReceived` changes otherwise. -/
theorem runBytes_payload (w : WriteOracle) (p : List Nat) :
    ∀ (s : ConnState) (x : Nat), s.inMessage = true → s.t.BytesReceived = u64 x →
      (∀ b ∈ p, b ≠ s.t.StartByte ∧ b ≠ s.t.EndByte) →
      runBytes w s p =
        { s with t := { s.t with BytesReceived := u64 (x + p.length) },
                 buffer := s.buffer ++ p } := by
  induction p with
  | nil =>
    intro s x _ hx _
    obtain ⟨t, buffer, inMessage, dispatched, written, closed⟩ := s
    cases t
    simp_all [runBytes]
  | cons b p ih =>
    intro s x hin hx hp
    have hb := hp b (List.mem_cons_self b p)
    have hstep : handleByte w s b =
        { s with t := { s.t with BytesReceived := u64 (x + 1) },
                 buffer := s.buffer ++ [b] } := by
      simp [handleByte, hb.1, hb.2, hin, hx, u64_add_u64]
    have hrest := ih (handleByte w s b) (x + 1) (by rw [hstep]; exact hin)
      (by rw [hstep]) (by
        intro c hc
        rw [hstep]
        exact hp c (List.mem_cons_of_mem b hc))
    show runBytes w (handleByte w s b) p = _
    rw [hrest, hstep]
    simp [Nat.add_assoc, Nat.add_comm 1]

/-- C1. Framing round trip: for a tenant with `StartByte ≠ EndByte` and a
payload `p` without delimiter bytes, the loop of `handleConnection`, started
Idle with an empty buffer on a socket whose writes succeed in full, after
reading `StartByte`, `p`, `EndByte` has written exactly one echo
`StartByte ++ p ++ EndByte`, has dispatched exactly the message `p`, and has
added `len(p) + 2` to both `BytesReceived` and `BytesSent` (in `uint64`
arithmetic); it is Idle again and `Errors` is unchanged. -/
theorem C1_framing_round_trip (t : Tenant) (p : List Nat)
    (hne : t.StartByte ≠ t.EndByte)
    (hp : ∀ b ∈ p, b ≠ t.StartByte ∧ b ≠ t.EndByte) :
    let s := runBytes fullWrite (initConn t) (t.StartByte :: (p ++ [t.EndByte]))
    s.written = [t.StartByte :: (p ++ [t.EndByte])] ∧
    s.dispatched = [p] ∧
    s.t.BytesReceived = u64 (t.BytesReceived + (p.length + 2)) ∧
    s.t.BytesSent = u64 (t.BytesSent + (p.length + 2)) ∧
    s.t.Errors = t.Errors ∧
    s.inMessage = false := by
  intro s
  have h1 : handleByte fullWrite (initConn t) t.StartByte =
      { initConn t with t := { t with BytesReceived := u64 (t.BytesReceived + 1) },
                        buffer := [], inMessage := true } := by
    simp [handleByte, initConn]
  have h2 := runBytes_payload fullWrite p (handleByte fullWrite (initConn t) t.StartByte)
    (t.BytesReceived + 1) (by rw [h1]) (by rw [h1]) (by rw [h1]; exact hp)
  have hs : s = handleByte fullWrite
      (runBytes fullWrite (handleByte fullWrite (initConn t) t.StartByte) p) t.EndByte := by
    show runBytes fullWrite (initConn t) (t.StartByte :: (p ++ [t.EndByte])) = _
    simp [runBytes, List.foldl_append]
  rw [hs, h2, h1]
  have hne2 : ¬ t.EndByte = t.StartByte := fun h => hne h.symm
  simp [handleByte, initConn, fullWrite, hne2, u64_add_u64, u64_add_u64_right]
  congr 1; omega

/-- Witness of C1: the frame `2 "hello" 3` of the specification. -/
theorem C1_framing_round_trip_witness :
    let t : Tenant := { Tenant.zero with StartByte := 2, EndByte := 3 }
    let s := runBytes fullWrite (initConn t) (2 :: ([104, 101, 108, 108, 111] ++ [3]))
    s.written = [2 :: ([104, 101, 108, 108, 111] ++ [3])] ∧
    s.dispatched = [[104, 101, 108, 108, 111]] ∧
    s.t.BytesReceived = u64 (0 + (5 + 2)) ∧
    s.t.BytesSent = u64 (0 + (5 + 2)) ∧
    s.t.Errors = 0 ∧
    s.inMessage = false :=
  C1_framing_round_trip { Tenant.zero with StartByte := 2, EndByte := 3 }
    [104, 101, 108, 108, 111] (by decide) (by decide)

/-! ## Go maps -/

namespace GoMap

variable {α : Type}

theorem find_erase_self (l : List (String × α)) (k : String) :
    find (erase l k) k = none := by
  induction l with
  | nil => rfl
  | cons e l ih =>
    obtain ⟨k0, v⟩ := e
    by_cases h : k0 = k
    · simp [erase, h, ih]
    · simp [erase, h, find, ih]

theorem find_erase_ne (l : List (String × α)) {k k' : String} (hk : k' ≠ k) :
    find (erase l k) k' = find l k' := by
  induction l with
  | nil => rfl
  | cons e l ih =>
    obtain ⟨k0, v⟩ := e
    by_cases h : k0 = k
    · have h' : ¬ k = k' := fun h2 => hk h2.symm
      simp [erase, h, find, h', ih]
    · by_cases h2 : k0 = k'
      · subst h2
        simp [erase, h, find]
      · simp [erase, h, find, h2, ih]

theorem get_delete_self (m : GoMap α) (k : String) : (m.delete k).get k = none :=
  find_erase_self m.entries k

theorem get_delete_ne (m : GoMap α) {k k' : String} (hk : k' ≠ k) :
    (m.delete k).get k' = m.get k' :=
  find_erase_ne m.entries hk

theorem get_set_self (m : GoMap α) (k : String) (v : α) : (m.set k v).get k = some v := by
  simp [set, get, find]

theorem get_set_ne (m : GoMap α) {k k' : String} (v : α) (hk : k' ≠ k) :
    (m.set k v).get k' = m.get k' := by
  have h : ¬ k = k' := fun h => hk h.symm
  simp only [set, get, find, h, if_false]
  exact find_erase_ne m.entries hk

theorem find_isSome_iff (l : List (String × α)) (k : String) :
    (find l k).isSome = true ↔ k ∈ l.map Prod.fst := by
  induction l with
  | nil => simp [find]
  | cons e l ih =>
    obtain ⟨k0, v⟩ := e
    by_cases h : k0 = k
    · simp [find, h]
    · have h' : ¬ k = k0 := fun h2 => h h2.symm
      simp [find, h, h', ih]

theorem mem_keys_iff (m : GoMap α) (k : String) :
    k ∈ m.keys ↔ (m.get k).isSome = true := by
  unfold keys get
  rw [List.mem_dedup, find_isSome_iff]

theorem mem_keys_of_get (m : GoMap α) {k : String} {v : α} (h : m.get k = some v) :
    k ∈ m.keys := by
  rw [mem_keys_iff, h]; rfl

end GoMap

/-! ## Reconciliation -/

@[simp] theorem StartKeepAliveRoutine_Tenants (s : Registry) (port : String) (t : Tenant) :
    (StartKeepAliveRoutine s port t).Tenants = s.Tenants := by
  unfold StartKeepAliveRoutine; split <;> rfl

@[simp] theorem StartKeepAliveRoutine_Listeners (s : Registry) (port : String) (t : Tenant) :
    (StartKeepAliveRoutine s port t).Listeners = s.Listeners := by
  unfold StartKeepAliveRoutine; split <;> rfl

@[simp] theorem StartKeepAliveRoutine_lockHeld (s : Registry) (port : String) (t : Tenant) :
    (StartKeepAliveRoutine s port t).lockHeld = s.lockHeld := by
  unfold StartKeepAliveRoutine; split <;> rfl

@[simp] theorem StopTenantListener_Tenants (s : Registry) (port : String) :
    (StopTenantListener s port).Tenants = s.Tenants := by
  unfold StopTenantListener; split <;> rfl

@[simp] theorem StopTenantListener_lockHeld (s : Registry) (port : String) :
    (StopTenantListener s port).lockHeld = s.lockHeld := by
  unfold StopTenantListener; split <;> rfl

theorem StopTenantListener_get_self (s : Registry) (port : String) :
    (StopTenantListener s port).Listeners.get port = none := by
  unfold StopTenantListener
  split
  · assumption
  · exact GoMap.get_delete_self _ _

theorem StopTenantListener_get_ne (s : Registry) {port P : String} (h : P ≠ port) :
    (StopTenantListener s port).Listeners.get P = s.Listeners.get P := by
  unfold StopTenantListener
  split
  · rfl
  · exact GoMap.get_delete_ne _ h

@[simp] theorem startTenantListener_Tenants (listen : ListenOracle) (s : Registry)
    (port : String) (t : Tenant) :
    (startTenantListener listen s port t).Tenants = s.Tenants := by
  unfold startTenantListener
  split <;> simp

@[simp] theorem startTenantListener_lockHeld (listen : ListenOracle) (s : Registry)
    (port : String) (t : Tenant) :
    (startTenantListener listen s port t).lockHeld = s.lockHeld := by
  unfold startTenantListener
  split <;> simp

theorem startTenantListener_get_ne (listen : ListenOracle) (s : Registry)
    {port P : String} (t : Tenant) (h : P ≠ port) :
    (startTenantListener listen s port t).Listeners.get P = s.Listeners.get P := by
  unfold startTenantListener
  split
  · rfl
  · simp [GoMap.get_set_ne _ _ h]

theorem startTenantListener_get_self (listen : ListenOracle) (s : Registry)
    (port : String) (t : Tenant) :
    (startTenantListener listen s port t).Listeners.get port =
      match listen s.listenCalls.length port with
      | none => s.Listeners.get port
      | some ln => some ln := by
  unfold startTenantListener
  split
  · rfl
  · simp [GoMap.get_set_self]

/-- The first loop of `SyncListeners` touches the tenant of its own key only. -/
theorem syncTenant_Tenants_ne (listen : ListenOracle) (s : Registry) {q P : String}
    (h : P ≠ q) : (syncTenant listen s q).Tenants.get P = s.Tenants.get P := by
  unfold syncTenant
  split
  · rfl
  · split
    · simp [GoMap.get_delete_ne _ h]
    · split <;> simp

/-- The first loop of `SyncListeners` deletes a tenant or keeps it as it is. -/
theorem syncTenant_Tenants_self (listen : ListenOracle) (s : Registry) (q : String) :
    (syncTenant listen s q).Tenants.get q =
      match s.Tenants.get q with
      | none => none
      | some t => if t.Name = "" then none else some t := by
  unfold syncTenant
  split
  · next h => simp [h]
  · next t h =>
    split
    · simp [GoMap.get_delete_self]
    · split <;> simp [h]

theorem syncTenant_Listeners_ne (listen : ListenOracle) (s : Registry) {q P : String}
    (h : P ≠ q) : (syncTenant listen s q).Listeners.get P = s.Listeners.get P := by
  unfold syncTenant
  split
  · rfl
  · split
    · simp [StopTenantListener_get_ne _ h]
    · split
      · rfl
      · exact startTenantListener_get_ne listen s _ h

@[simp] theorem syncTenant_lockHeld (listen : ListenOracle) (s : Registry) (q : String) :
    (syncTenant listen s q).lockHeld = s.lockHeld := by
  unfold syncTenant
  split
  · rfl
  · split
    · simp
    · split <;> simp

/-- A tenant is never created by the first loop of `SyncListeners`. -/
theorem syncTenant_Tenants_sub (listen : ListenOracle) (s : Registry) (q P : String)
    (t : Tenant) (h : (syncTenant listen s q).Tenants.get P = some t) :
    s.Tenants.get P = some t := by
  by_cases hq : P = q
  · subst hq
    rw [syncTenant_Tenants_self] at h
    split at h
    · cases h
    · next t0 h0 =>
      split at h
      · cases h
      · rw [h0]; exact h
  · rw [syncTenant_Tenants_ne listen s hq] at h
    exact h

/-- After the first loop has visited `q`, a tenant that is left at `q` has a
name and a listener, when the bind succeeds. -/
theorem syncTenant_self (listen : ListenOracle) (s : Registry) (q : String)
    (hbind : ∀ i port, (listen i port).isSome = true) (t : Tenant)
    (h : (syncTenant listen s q).Tenants.get q = some t) :
    t.Name ≠ "" ∧ ((syncTenant listen s q).Listeners.get q).isSome = true := by
  unfold syncTenant at h ⊢
  split at h
  · next h0 => simp [h0] at h
  · next t0 h0 =>
    split at h
    · simp [GoMap.get_delete_self] at h
    · next hname =>
      split at h
      · next ln hl =>
        simp only [h0] at h
        cases h
        simp [hname, h0, hl]
      · next hl =>
        simp only [startTenantListener_Tenants, h0] at h
        cases h
        refine ⟨hname, ?_⟩
        simp only [h0, hname, hl, if_false]
        rw [startTenantListener_get_self]
        have hb := hbind s.listenCalls.length q
        revert hb
        cases listen s.listenCalls.length q <;> simp

theorem syncTenant_Served (listen : ListenOracle) (s : Registry) (q P : String)
    (hbind : ∀ i port, (listen i port).isSome = true)
    (h : P = q ∨ Served s P) : Served (syncTenant listen s q) P := by
  by_cases hq : P = q
  · subst hq
    exact fun t ht => syncTenant_self listen s P hbind t ht
  · rcases h with h | h
    · exact absurd h hq
    · intro t ht
      rw [syncTenant_Tenants_ne listen s hq] at ht
      rw [syncTenant_Listeners_ne listen s hq]
      exact h t ht

theorem foldl_syncTenant_Served (listen : ListenOracle)
    (hbind : ∀ i port, (listen i port).isSome = true) (ks : List String) :
    ∀ (s : Registry) (P : String), (P ∈ ks ∨ Served s P) →
      Served (ks.foldl (syncTenant listen) s) P := by
  induction ks with
  | nil =>
    intro s P h
    rcases h with h | h
    · cases h
    · exact h
  | cons q r ih =>
    intro s P h
    apply ih (syncTenant listen s q) P
    rcases h with h | h
    · rcases List.mem_cons.mp h with h | h
      · exact Or.inr (syncTenant_Served listen s q P hbind (Or.inl h))
      · exact Or.inl h
    · exact Or.inr (syncTenant_Served listen s q P hbind (Or.inr h))

theorem foldl_syncTenant_Tenants_sub (listen : ListenOracle) (ks : List String) :
    ∀ (s : Registry) (P : String) (t : Tenant),
      (ks.foldl (syncTenant listen) s).Tenants.get P = some t →
      s.Tenants.get P = some t := by
  induction ks with
  | nil => intro s P t h; exact h
  | cons q r ih =>
    intro s P t h
    exact syncTenant_Tenants_sub listen s q P t (ih (syncTenant listen s q) P t h)

@[simp] theorem foldl_syncTenant_lockHeld (listen : ListenOracle) (ks : List String) :
    ∀ s : Registry, (ks.foldl (syncTenant listen) s).lockHeld = s.lockHeld := by
  induction ks with
  | nil => intro s; rfl
  | cons q r ih => intro s; simp [ih]

/-- After the first loop of `SyncListeners` every tenant has a name and a
listener, when every bind succeeds. -/
theorem firstLoop_Served (listen : ListenOracle)
    (hbind : ∀ i port, (listen i port).isSome = true) (s : Registry) (P : String) :
    Served (s.Tenants.keys.foldl (syncTenant listen) s) P := by
  by_cases hP : P ∈ s.Tenants.keys
  · exact foldl_syncTenant_Served listen hbind _ s P (Or.inl hP)
  · intro t ht
    have h0 := foldl_syncTenant_Tenants_sub listen _ s P t ht
    exact absurd (GoMap.mem_keys_of_get _ h0) hP

@[simp] theorem syncListener_Tenants (s : Registry) (q : String) :
    (syncListener s q).Tenants = s.Tenants := by
  unfold syncListener
  split
  · rfl
  · split <;> rfl

@[simp] theorem syncListener_lockHeld (s : Registry) (q : String) :
    (syncListener s q).lockHeld = s.lockHeld := by
  unfold syncListener
  split
  · rfl
  · split <;> rfl

theorem syncListener_Listeners_ne (s : Registry) {q P : String} (h : P ≠ q) :
    (syncListener s q).Listeners.get P = s.Listeners.get P := by
  unfold syncListener
  split
  · rfl
  · split
    · rfl
    · exact GoMap.get_delete_ne _ h

/-- The second loop of `SyncListeners` at its own key: the listener stays
when the port has a tenant and goes when it has none. -/
theorem syncListener_Listeners_self (s : Registry) (q : String) :
    (syncListener s q).Listeners.get q =
      if (s.Tenants.get q).isSome then s.Listeners.get q else none := by
  unfold syncListener
  split
  · next h => simp [h]
  · next ln h =>
    split
    · next t ht => simp [ht]
    · next ht => simp [ht, GoMap.get_delete_self]

@[simp] theorem foldl_syncListener_Tenants (ks : List String) :
    ∀ s : Registry, (ks.foldl syncListener s).Tenants = s.Tenants := by
  induction ks with
  | nil => intro s; rfl
  | cons q r ih => intro s; simp [ih]

@[simp] theorem foldl_syncListener_lockHeld (ks : List String) :
    ∀ s : Registry, (ks.foldl syncListener s).lockHeld = s.lockHeld := by
  induction ks with
  | nil => intro s; rfl
  | cons q r ih => intro s; simp [ih]

theorem syncListener_Served (s : Registry) (q P : String) (h : Served s P) :
    Served (syncListener s q) P := by
  intro t ht
  rw [syncListener_Tenants] at ht
  refine ⟨(h t ht).1, ?_⟩
  by_cases hq : P = q
  · subst hq
    rw [syncListener_Listeners_self, ht]
    exact (h t ht).2
  · rw [syncListener_Listeners_ne s hq]
    exact (h t ht).2

theorem syncListener_Owned (s : Registry) (q P : String) (h : P = q ∨ Owned s P) :
    Owned (syncListener s q) P := by
  intro hl
  rw [syncListener_Tenants]
  by_cases hq : P = q
  · subst hq
    rw [syncListener_Listeners_self] at hl
    by_cases ht : (s.Tenants.get P).isSome = true
    · exact ht
    · simp [ht] at hl
  · rcases h with h | h
    · exact absurd h hq
    · rw [syncListener_Listeners_ne s hq] at hl
      exact h hl

theorem foldl_syncListener_Served (ks : List String) :
    ∀ (s : Registry) (P : String), Served s P → Served (ks.foldl syncListener s) P := by
  induction ks with
  | nil => intro s P h; exact h
  | cons q r ih => intro s P h; exact ih _ P (syncListener_Served s q P h)

theorem foldl_syncListener_Owned (ks : List String) :
    ∀ (s : Registry) (P : String), (P ∈ ks ∨ Owned s P) →
      Owned (ks.foldl syncListener s) P := by
  induction ks with
  | nil =>
    intro s P h
    rcases h with h | h
    · cases h
    · exact h
  | cons q r ih =>
    intro s P h
    apply ih (syncListener s q) P
    rcases h with h | h
    · rcases List.mem_cons.mp h with h | h
      · exact Or.inr (syncListener_Owned s q P (Or.inl h))
      · exact Or.inl h
    · exact Or.inr (syncListener_Owned s q P (Or.inr h))

/-- After the second loop of `SyncListeners` every listener has a tenant. -/
theorem secondLoop_Owned (s : Registry) (P : String) :
    Owned (s.Listeners.keys.foldl syncListener s) P := by
  apply foldl_syncListener_Owned
  by_cases hP : P ∈ s.Listeners.keys
  · exact Or.inl hP
  · right
    intro hl
    exact absurd ((GoMap.mem_keys_iff _ _).mpr hl) hP

/-- C3. Registry/listener invariant: from every state of the two maps, when
every bind attempt succeeds, after `SyncListeners` a listener is bound for
port `P` if and only if a tenant record exists at `P`, and every tenant record
left has a non-empty `Name`. -/
theorem C3_listener_iff_tenant (listen : ListenOracle) (s : Registry)
    (hbind : ∀ i port, (listen i port).isSome = true) (P : String) :
    (((SyncListeners listen s).Listeners.get P).isSome = true ↔
      ((SyncListeners listen s).Tenants.get P).isSome = true) ∧
    ∀ t, (SyncListeners listen s).Tenants.get P = some t → t.Name ≠ "" := by
  have hS : Served (SyncListeners listen s) P :=
    foldl_syncListener_Served _ _ P (firstLoop_Served listen hbind s P)
  have hO : Owned (SyncListeners listen s) P := secondLoop_Owned _ P
  refine ⟨⟨hO, ?_⟩, fun t ht => (hS t ht).1⟩
  intro ht
  obtain ⟨t, ht'⟩ := Option.isSome_iff_exists.mp ht
  exact (hS t ht').2

/-- Witness of C3: the registry with tenant "A", every bind succeeding. -/
theorem C3_listener_iff_tenant_witness :
    (∀ i port, (listenAll i port).isSome = true) ∧
    ((((SyncListeners listenAll registryA).Listeners.get "3000").isSome = true ↔
      ((SyncListeners listenAll registryA).Tenants.get "3000").isSome = true) ∧
    ∀ t, (SyncListeners listenAll registryA).Tenants.get "3000" = some t → t.Name ≠ "") :=
  ⟨fun _ _ => rfl, C3_listener_iff_tenant listenAll registryA (fun _ _ => rfl) "3000"⟩

/-! ## The patch endpoint and the lock -/

@[simp] theorem SyncListeners_lockHeld (listen : ListenOracle) (s : Registry) :
    (SyncListeners listen s).lockHeld = s.lockHeld := by
  simp [SyncListeners]

@[simp] theorem patchOne_lockHeld (s : Registry) (pt : Tenant) :
    (patchOne s pt).lockHeld = s.lockHeld := by
  unfold patchOne
  split
  · rfl
  · split
    · split <;> simp
    · split <;> rfl

@[simp] theorem patchLoop_lockHeld (patchTenants : List Tenant) :
    ∀ s : Registry, (patchLoop s patchTenants).lockHeld = s.lockHeld := by
  induction patchTenants with
  | nil => intro s; rfl
  | cons pt r ih =>
    intro s
    show (patchLoop (patchOne s pt) r).lockHeld = s.lockHeld
    rw [ih, patchOne_lockHeld]

/-- Once the body is parsed, `handlePatchTenants` never returns: it holds
`TenantsLock` when it calls `SaveTenantsToFile`, which locks it again. -/
theorem patchAndSave_deadlock (listen : ListenOracle) (store : StoreOracle) (s : Registry)
    (patchTenants : List Tenant) :
    ∃ s1, patchAndSave listen store s patchTenants = Run.deadlock s1 := by
  unfold patchAndSave
  by_cases h : s.lockHeld = true
  · exact ⟨s, by simp [h]⟩
  · refine ⟨SyncListeners listen (patchLoop { s with lockHeld := true } patchTenants), ?_⟩
    simp [h, SaveTenantsToFile]

/-- The other caller of `SaveTenantsToFile`, the loop of
`StartTenantFileManager`, does not hold the lock when it calls it, and
returns. -/
theorem fileManagerTick_returns (listen : ListenOracle) (store : StoreOracle)
    (file : FileContent) (s : Registry) (h : s.lockHeld = false) :
    ∃ s1, fileManagerTick listen store file s = Run.done () s1 := by
  unfold fileManagerTick
  cases file with
  | unreadable => exact ⟨s, by simp [LoadTenantsFromFile]⟩
  | malformed => exact ⟨s, by simp [LoadTenantsFromFile]⟩
  | records fts =>
    refine ⟨SyncListeners listen
      { mergeTenants { s with lockHeld := true } fts with lockHeld := false }, ?_⟩
    simp [LoadTenantsFromFile, SaveTenantsToFile, h]

/-- C2 (the code does not do what the claim says). For every state of the
registry, every behaviour of `net.Listen` and of the file system, and every
list of patch records or single patch record, a PATCH and a POST request make
`handlePatchTenants` wait forever for `TenantsLock`: no response is returned,
neither 200 nor 500. -/
theorem C2_handlePatchTenants_never_responds (listen : ListenOracle) (store : StoreOracle)
    (s : Registry) (patchTenants : List Tenant) (single : Tenant) :
    (∃ s1, handlePatchTenants listen store s ⟨"PATCH", PatchBody.array patchTenants⟩
      = Run.deadlock s1) ∧
    (∃ s1, handlePatchTenants listen store s ⟨"POST", PatchBody.array patchTenants⟩
      = Run.deadlock s1) ∧
    (∃ s1, handlePatchTenants listen store s ⟨"PATCH", PatchBody.object single⟩
      = Run.deadlock s1) ∧
    (∃ s1, handlePatchTenants listen store s ⟨"POST", PatchBody.object single⟩
      = Run.deadlock s1) := by
  have h1 := patchAndSave_deadlock listen store s patchTenants
  have h2 := patchAndSave_deadlock listen store s [single]
  refine ⟨?_, ?_, ?_, ?_⟩ <;> simp [handlePatchTenants] <;> assumption

/-! ## Patching an existing tenant -/

/-- A patch of one record for a non-empty port with a tenant, without
`Remove`, stores `patchExisting` at the port. -/
theorem patchLoop_single_existing (s : Registry) (t pt : Tenant)
    (hport : pt.Port ≠ "") (hrm : pt.Remove = false)
    (hget : s.Tenants.get pt.Port = some t) :
    (patchLoop s [pt]).Tenants.get pt.Port = some (patchExisting t pt) := by
  show (patchOne s pt).Tenants.get pt.Port = _
  unfold patchOne
  simp [hport, hrm, hget, GoMap.get_set_self]

/-- C4 (counterexample). The tenant "A" on port 3000 has `MessageFormat`
"text" and `Endpoint` "http://old/"; a patch record for port 3000 with
`MessageFormat` "xml" and `Endpoint` "http://new/" leaves the record as it was.
And a patch record with a `Comment` for the tenant whose `Port` is empty is
skipped. -/
theorem C4_patch_overwrite_counterexample :
    (patchEndpoint.MessageFormat = "xml" ∧ patchEndpoint.Endpoint = "http://new/" ∧
      patchEndpoint.Remove = false ∧
      registryA.Tenants.get patchEndpoint.Port = some tenantA ∧
      (patchLoop registryA [patchEndpoint]).Tenants.get "3000" = some tenantA ∧
      tenantA.MessageFormat = "text" ∧ tenantA.Endpoint = "http://old/") ∧
    (registryNoPort.Tenants.get "" = some tenantNoPort ∧
      (patchLoop registryNoPort [{ Tenant.zero with Comment := "new" }]).Tenants.get ""
        = some tenantNoPort ∧
      tenantNoPort.Comment = "old") := by
  decide

/-- C4 (as amended). For a tenant `t` stored at a non-empty port and a patch
record `pt` for that port with `Remove = false`, after the patch each of the
fields `Name`, `Comment`, `StartByte`, `EndByte`, `SimpleAuthToken`, OAuth
`ClientID`, `ClientSecret`, `TokenURL`, `Scopes`, `KeepAliveIntervalSec` and
`KeepAliveFile` that is non-empty or non-zero in `pt` has the value it has in
`pt`. -/
theorem C4_patch_overwrite (s : Registry) (t pt : Tenant)
    (hport : pt.Port ≠ "") (hrm : pt.Remove = false)
    (hget : s.Tenants.get pt.Port = some t) :
    ∃ t1, (patchLoop s [pt]).Tenants.get pt.Port = some t1 ∧
      (pt.Name ≠ "" → t1.Name = pt.Name) ∧
      (pt.Comment ≠ "" → t1.Comment = pt.Comment) ∧
      (pt.StartByte ≠ 0 → t1.StartByte = pt.StartByte) ∧
      (pt.EndByte ≠ 0 → t1.EndByte = pt.EndByte) ∧
      (pt.SimpleAuthToken ≠ "" → t1.SimpleAuthToken = pt.SimpleAuthToken) ∧
      (pt.OAuthCredentials.ClientID ≠ "" →
        t1.OAuthCredentials.ClientID = pt.OAuthCredentials.ClientID) ∧
      (pt.OAuthCredentials.ClientSecret ≠ "" →
        t1.OAuthCredentials.ClientSecret = pt.OAuthCredentials.ClientSecret) ∧
      (pt.OAuthCredentials.TokenURL ≠ "" →
        t1.OAuthCredentials.TokenURL = pt.OAuthCredentials.TokenURL) ∧
      (pt.OAuthCredentials.Scopes ≠ [] →
        t1.OAuthCredentials.Scopes = pt.OAuthCredentials.Scopes) ∧
      (pt.KeepAliveIntervalSec ≠ 0 → t1.KeepAliveIntervalSec = pt.KeepAliveIntervalSec) ∧
      (pt.KeepAliveFile ≠ "" → t1.KeepAliveFile = pt.KeepAliveFile) := by
  refine ⟨patchExisting t pt, patchLoop_single_existing s t pt hport hrm hget, ?_⟩
  refine ⟨?_, ?_, ?_, ?_, ?_, ?_, ?_, ?_, ?_, ?_, ?_⟩ <;> intro h <;>
    simp [patchExisting, h, List.length_pos]

/-- Witness of C4 (as amended): the tenant "A" and a patch of its
`Comment`. -/
theorem C4_patch_overwrite_witness :
    patchComment.Port ≠ "" ∧ patchComment.Remove = false ∧
    registryA.Tenants.get patchComment.Port = some tenantA ∧
    ∃ t1, (patchLoop registryA [patchComment]).Tenants.get patchComment.Port = some t1 ∧
      (patchComment.Name ≠ "" → t1.Name = patchComment.Name) ∧
      (patchComment.Comment ≠ "" → t1.Comment = patchComment.Comment) ∧
      (patchComment.StartByte ≠ 0 → t1.StartByte = patchComment.StartByte) ∧
      (patchComment.EndByte ≠ 0 → t1.EndByte = patchComment.EndByte) ∧
      (patchComment.SimpleAuthToken ≠ "" →
        t1.SimpleAuthToken = patchComment.SimpleAuthToken) ∧
      (patchComment.OAuthCredentials.ClientID ≠ "" →
        t1.OAuthCredentials.ClientID = patchComment.OAuthCredentials.ClientID) ∧
      (patchComment.OAuthCredentials.ClientSecret ≠ "" →
        t1.OAuthCredentials.ClientSecret = patchComment.OAuthCredentials.ClientSecret) ∧
      (patchComment.OAuthCredentials.TokenURL ≠ "" →
        t1.OAuthCredentials.TokenURL = patchComment.OAuthCredentials.TokenURL) ∧
      (patchComment.OAuthCredentials.Scopes ≠ [] →
        t1.OAuthCredentials.Scopes = patchComment.OAuthCredentials.Scopes) ∧
      (patchComment.KeepAliveIntervalSec ≠ 0 →
        t1.KeepAliveIntervalSec = patchComment.KeepAliveIntervalSec) ∧
      (patchComment.KeepAliveFile ≠ "" → t1.KeepAliveFile = patchComment.KeepAliveFile) :=
  ⟨by decide, rfl, rfl,
    C4_patch_overwrite registryA tenantA patchComment (by decide) rfl rfl⟩

/-- The first loop of `SyncListeners` keeps a tenant that has a name. -/
theorem foldl_syncTenant_keeps (listen : ListenOracle) (ks : List String) :
    ∀ (s : Registry) (P : String) (t : Tenant), s.Tenants.get P = some t → t.Name ≠ "" →
      (ks.foldl (syncTenant listen) s).Tenants.get P = some t := by
  induction ks with
  | nil => intro s P t h _; exact h
  | cons q r ih =>
    intro s P t h hname
    apply ih (syncTenant listen s q) P t _ hname
    by_cases hq : P = q
    · subst hq
      rw [syncTenant_Tenants_self, h]
      simp [hname]
    · rw [syncTenant_Tenants_ne listen s hq]
      exact h

/-- Reconciliation keeps a tenant that has a name, as it is. -/
theorem SyncListeners_keeps (listen : ListenOracle) (s : Registry) (P : String) (t : Tenant)
    (h : s.Tenants.get P = some t) (hname : t.Name ≠ "") :
    (SyncListeners listen s).Tenants.get P = some t := by
  unfold SyncListeners
  simp only [foldl_syncListener_Tenants]
  exact foldl_syncTenant_keeps listen _ s P t h hname

/-- C5. Patch is field-granular: for a tenant `t` with a non-empty `Name`
and a patch record `pt` for its port with `Remove = false`, the port holds a
record `t1` after the patch loop and the same record after the reconciliation
that follows; every field that is empty or zero in `pt` has in `t1` the value
it had in `t`; the counters, the cached OAuth token and the connections are
those of `t`; and when `pt` supplies no field but `Comment`, `t1` is `t` with
at most `Comment` changed. -/
theorem C5_patch_field_granular (listen : ListenOracle) (s : Registry) (t pt : Tenant)
    (hname : t.Name ≠ "") (hrm : pt.Remove = false)
    (hget : s.Tenants.get pt.Port = some t) :
    ∃ t1, (patchLoop s [pt]).Tenants.get pt.Port = some t1 ∧
      (SyncListeners listen (patchLoop s [pt])).Tenants.get pt.Port = some t1 ∧
      (pt.Name = "" → t1.Name = t.Name) ∧
      (pt.Comment = "" → t1.Comment = t.Comment) ∧
      (pt.StartByte = 0 → t1.StartByte = t.StartByte) ∧
      (pt.EndByte = 0 → t1.EndByte = t.EndByte) ∧
      (pt.SimpleAuthToken = "" → t1.SimpleAuthToken = t.SimpleAuthToken) ∧
      (pt.OAuthCredentials.ClientID = "" →
        t1.OAuthCredentials.ClientID = t.OAuthCredentials.ClientID) ∧
      (pt.OAuthCredentials.ClientSecret = "" →
        t1.OAuthCredentials.ClientSecret = t.OAuthCredentials.ClientSecret) ∧
      (pt.OAuthCredentials.TokenURL = "" →
        t1.OAuthCredentials.TokenURL = t.OAuthCredentials.TokenURL) ∧
      (pt.OAuthCredentials.Scopes = [] →
        t1.OAuthCredentials.Scopes = t.OAuthCredentials.Scopes) ∧
      (pt.KeepAliveIntervalSec = 0 → t1.KeepAliveIntervalSec = t.KeepAliveIntervalSec) ∧
      (pt.KeepAliveFile = "" → t1.KeepAliveFile = t.KeepAliveFile) ∧
      (pt.MessageFormat = "" → t1.MessageFormat = t.MessageFormat) ∧
      (pt.Endpoint = "" → t1.Endpoint = t.Endpoint) ∧
      t1.BytesReceived = t.BytesReceived ∧ t1.BytesSent = t.BytesSent ∧
      t1.Errors = t.Errors ∧
      t1.OAuthCredentials.AccessToken = t.OAuthCredentials.AccessToken ∧
      t1.OAuthCredentials.TokenType = t.OAuthCredentials.TokenType ∧
      t1.OAuthCredentials.TokenExpiry = t.OAuthCredentials.TokenExpiry ∧
      t1.Connections = t.Connections ∧
      (pt.Name = "" ∧ pt.StartByte = 0 ∧ pt.EndByte = 0 ∧ pt.SimpleAuthToken = "" ∧
        pt.OAuthCredentials.ClientID = "" ∧ pt.OAuthCredentials.ClientSecret = "" ∧
        pt.OAuthCredentials.TokenURL = "" ∧ pt.OAuthCredentials.Scopes = [] ∧
        pt.KeepAliveIntervalSec = 0 ∧ pt.KeepAliveFile = "" →
        t1 = { t with Comment := t1.Comment }) := by
  by_cases hport : pt.Port = ""
  · have hs : patchLoop s [pt] = s := by
      show patchOne s pt = s
      simp [patchOne, hport]
    refine ⟨t, ?_, ?_, ?_⟩
    · rw [hs]; exact hget
    · rw [hs]; exact SyncListeners_keeps listen s _ t hget hname
    · simp
  · have h1 := patchLoop_single_existing s t pt hport hrm hget
    have hname1 : (patchExisting t pt).Name ≠ "" := by
      by_cases hn : pt.Name = "" <;> simp [patchExisting, hn, hname]
    refine ⟨patchExisting t pt, h1, SyncListeners_keeps listen _ _ _ h1 hname1, ?_⟩
    refine ⟨?_, ?_, ?_, ?_, ?_, ?_, ?_, ?_, ?_, ?_, ?_, ?_, ?_, ?_, ?_, ?_, ?_, ?_, ?_, ?_, ?_⟩
    all_goals first
      | rfl
      | (intro h; simp [patchExisting, h])

/-- Witness of C5: the tenant "A" and a patch record that supplies only
`Comment`. -/
theorem C5_patch_field_granular_witness :
    tenantA.Name ≠ "" ∧ patchComment.Remove = false ∧
    registryA.Tenants.get patchComment.Port = some tenantA ∧
    ∃ t1, (patchLoop registryA [patchComment]).Tenants.get patchComment.Port = some t1 ∧
      (SyncListeners listenAll (patchLoop registryA [patchComment])).Tenants.get
        patchComment.Port = some t1 ∧
      t1.BytesReceived = tenantA.BytesReceived ∧
      t1 = { tenantA with Comment := t1.Comment } := by
  refine ⟨by decide, rfl, rfl, ?_⟩
  obtain ⟨t1, h1, h2, _, _, _, _, _, _, _, _, _, _, _, _, _, h3, _, _, _, _, _, _, h4⟩ :=
    C5_patch_field_granular listenAll registryA tenantA patchComment (by decide) rfl rfl
  exact ⟨t1, h1, h2, h3, h4 (by decide)⟩

/-! ## Removal by patch -/

theorem patchOne_Tenants_ne (s : Registry) (pt : Tenant) {P : String} (h : P ≠ pt.Port) :
    (patchOne s pt).Tenants.get P = s.Tenants.get P := by
  unfold patchOne
  split
  · rfl
  · split
    · split
      · rfl
      · simp [GoMap.get_delete_ne _ h]
    · split <;> simp [GoMap.get_set_ne _ _ h]

theorem patchOne_Listeners_ne (s : Registry) (pt : Tenant) {P : String} (h : P ≠ pt.Port) :
    (patchOne s pt).Listeners.get P = s.Listeners.get P := by
  unfold patchOne
  split
  · rfl
  · split
    · split
      · rfl
      · simp [StopTenantListener_get_ne _ h]
    · split <;> rfl

theorem StopTenantListener_closed_mono (s : Registry) (port : String) (ln : Listener)
    (h : ln ∈ s.closedListeners) : ln ∈ (StopTenantListener s port).closedListeners := by
  unfold StopTenantListener
  split
  · exact h
  · simp [h]

theorem StopTenantListener_closes (s : Registry) (port : String) (ln : Listener)
    (h : s.Listeners.get port = some ln) :
    ln ∈ (StopTenantListener s port).closedListeners := by
  unfold StopTenantListener
  simp [h]

theorem patchOne_closed_mono (s : Registry) (pt : Tenant) (ln : Listener)
    (h : ln ∈ s.closedListeners) : ln ∈ (patchOne s pt).closedListeners := by
  unfold patchOne
  split
  · exact h
  · split
    · split
      · exact h
      · exact StopTenantListener_closed_mono s _ ln h
    · split <;> exact h

theorem patchLoop_closed_mono (pts : List Tenant) :
    ∀ (s : Registry) (ln : Listener), ln ∈ s.closedListeners →
      ln ∈ (patchLoop s pts).closedListeners := by
  induction pts with
  | nil => intro s ln h; exact h
  | cons pt r ih => intro s ln h; exact ih _ ln (patchOne_closed_mono s pt ln h)

/-- A patch record for another port leaves port `P` as it is. -/
theorem patchLoop_other (pts : List Tenant) (P : String) :
    ∀ s : Registry, (∀ x ∈ pts, x.Port ≠ P) →
      (patchLoop s pts).Tenants.get P = s.Tenants.get P ∧
      (patchLoop s pts).Listeners.get P = s.Listeners.get P := by
  induction pts with
  | nil => intro s _; exact ⟨rfl, rfl⟩
  | cons pt r ih =>
    intro s h
    have hpt : P ≠ pt.Port := fun e => h pt (List.mem_cons_self pt r) e.symm
    have hr := ih (patchOne s pt) (fun x hx => h x (List.mem_cons_of_mem pt hx))
    show (patchLoop (patchOne s pt) r).Tenants.get P = _ ∧
      (patchLoop (patchOne s pt) r).Listeners.get P = _
    rw [hr.1, hr.2, patchOne_Tenants_ne s pt hpt, patchOne_Listeners_ne s pt hpt]
    exact ⟨rfl, rfl⟩

/-- Every patch record keeps a non-empty port `P` with a tenant, or without
tenant and listener. -/
theorem patchOne_LiveOrGone (s : Registry) (pt : Tenant) (P : String)
    (hP : P ≠ "") (h : LiveOrGone s P) : LiveOrGone (patchOne s pt) P := by
  by_cases hpt : P = pt.Port
  · subst hpt
    unfold patchOne
    simp only [hP, if_false]
    split
    · split
      · exact h
      · exact Or.inr ⟨by simp [GoMap.get_delete_self], StopTenantListener_get_self s _⟩
    · split <;> exact Or.inl (by simp [GoMap.get_set_self])
  · unfold LiveOrGone Gone
    rw [patchOne_Tenants_ne s pt hpt, patchOne_Listeners_ne s pt hpt]
    exact h

/-- Every patch record keeps the listener `ln` bound at the non-empty port
`P` for a tenant, or closes it, or finds it closed. -/
theorem patchOne_BoundOrClosed (s : Registry) (pt : Tenant) (P : String) (ln : Listener)
    (hP : P ≠ "") (h : BoundOrClosed s P ln) : BoundOrClosed (patchOne s pt) P ln := by
  rcases h with h | h
  · by_cases hpt : P = pt.Port
    · subst hpt
      unfold patchOne
      simp only [hP, if_false]
      split
      · split
        · exact Or.inl h
        · exact Or.inr (StopTenantListener_closes s _ ln h.1)
      · split
        · next ht => simp [ht] at h
        · exact Or.inl ⟨h.1, by simp [GoMap.get_set_self]⟩
    · left
      rw [patchOne_Tenants_ne s pt hpt, patchOne_Listeners_ne s pt hpt]
      exact h
  · exact Or.inr (patchOne_closed_mono s pt ln h)

theorem patchLoop_LiveOrGone (pts : List Tenant) (P : String) (hP : P ≠ "") :
    ∀ s : Registry, LiveOrGone s P → LiveOrGone (patchLoop s pts) P := by
  induction pts with
  | nil => intro s h; exact h
  | cons pt r ih => intro s h; exact ih _ (patchOne_LiveOrGone s pt P hP h)

theorem patchLoop_BoundOrClosed (pts : List Tenant) (P : String) (ln : Listener)
    (hP : P ≠ "") :
    ∀ s : Registry, BoundOrClosed s P ln → BoundOrClosed (patchLoop s pts) P ln := by
  induction pts with
  | nil => intro s h; exact h
  | cons pt r ih => intro s h; exact ih _ (patchOne_BoundOrClosed s pt P ln hP h)

/-- A record with `Remove = true` for the non-empty port `P` leaves neither a
tenant nor a listener at `P`. -/
theorem patchOne_remove_Gone (s : Registry) (pt : Tenant) (P : String)
    (hP : P ≠ "") (hpt : pt.Port = P) (hrm : pt.Remove = true) (h : LiveOrGone s P) :
    Gone (patchOne s pt) P := by
  subst hpt
  unfold patchOne
  simp only [hP, hrm, if_false, if_true]
  split
  · next ht =>
    rcases h with h1 | h1
    · simp [ht] at h1
    · exact h1
  · exact ⟨by simp [GoMap.get_delete_self], StopTenantListener_get_self s _⟩

/-- A record with `Remove = true` for the non-empty port `P` closes the
listener bound there. -/
theorem patchOne_remove_closed (s : Registry) (pt : Tenant) (P : String) (ln : Listener)
    (hP : P ≠ "") (hpt : pt.Port = P) (hrm : pt.Remove = true)
    (h : BoundOrClosed s P ln) : ln ∈ (patchOne s pt).closedListeners := by
  subst hpt
  rcases h with h | h
  · unfold patchOne
    simp only [hP, hrm, if_false, if_true]
    split
    · next ht => simp [ht] at h
    · exact StopTenantListener_closes s _ ln h.1
  · exact patchOne_closed_mono s pt ln h

/-! ## Reconciliation of a port without tenant -/

theorem syncTenant_Gone (listen : ListenOracle) (s : Registry) (q P : String)
    (h : Gone s P) : Gone (syncTenant listen s q) P := by
  by_cases hq : P = q
  · subst hq
    unfold syncTenant
    simp [h.1, h]
  · exact ⟨by rw [syncTenant_Tenants_ne listen s hq]; exact h.1,
      by rw [syncTenant_Listeners_ne listen s hq]; exact h.2⟩

theorem syncTenant_Marked (listen : ListenOracle) (s : Registry) (q P : String)
    (h : Marked s P) : (P = q → Gone (syncTenant listen s q) P) ∧
      (P ≠ q → Marked (syncTenant listen s q) P) := by
  obtain ⟨t, ht, hname⟩ := h
  constructor
  · intro hq
    subst hq
    unfold syncTenant
    simp only [ht, hname, if_true]
    exact ⟨by simp [GoMap.get_delete_self], StopTenantListener_get_self s _⟩
  · intro hq
    exact ⟨t, by rw [syncTenant_Tenants_ne listen s hq]; exact ht, hname⟩

theorem foldl_syncTenant_Gone (listen : ListenOracle) (ks : List String) :
    ∀ (s : Registry) (P : String), ((P ∈ ks ∧ Marked s P) ∨ Gone s P) →
      Gone (ks.foldl (syncTenant listen) s) P := by
  induction ks with
  | nil =>
    intro s P h
    rcases h with h | h
    · cases h.1
    · exact h
  | cons q r ih =>
    intro s P h
    apply ih (syncTenant listen s q) P
    rcases h with h | h
    · by_cases hq : P = q
      · exact Or.inr ((syncTenant_Marked listen s q P h.2).1 hq)
      · rcases List.mem_cons.mp h.1 with h1 | h1
        · exact absurd h1 hq
        · exact Or.inl ⟨h1, (syncTenant_Marked listen s q P h.2).2 hq⟩
    · exact Or.inr (syncTenant_Gone listen s q P h)

theorem syncListener_Gone (s : Registry) (q P : String) (h : Gone s P) :
    Gone (syncListener s q) P := by
  refine ⟨by rw [syncListener_Tenants]; exact h.1, ?_⟩
  by_cases hq : P = q
  · subst hq
    rw [syncListener_Listeners_self]
    simp [h.1]
  · rw [syncListener_Listeners_ne s hq]; exact h.2

theorem foldl_syncListener_Gone (ks : List String) :
    ∀ (s : Registry) (P : String), Gone s P → Gone (ks.foldl syncListener s) P := by
  induction ks with
  | nil => intro s P h; exact h
  | cons q r ih => intro s P h; exact ih _ P (syncListener_Gone s q P h)

/-- Reconciliation purges a port whose tenant is marked as removed, and
leaves a port without tenant and listener as it is. -/
theorem SyncListeners_Gone (listen : ListenOracle) (s : Registry) (P : String)
    (h : Marked s P ∨ Gone s P) : Gone (SyncListeners listen s) P := by
  unfold SyncListeners
  apply foldl_syncListener_Gone
  apply foldl_syncTenant_Gone
  rcases h with h | h
  · obtain ⟨t, ht, hname⟩ := h
    exact Or.inl ⟨GoMap.mem_keys_of_get _ ht, t, ht, hname⟩
  · exact Or.inr h

theorem syncTenant_closed_mono (listen : ListenOracle) (s : Registry) (q : String)
    (ln : Listener) (h : ln ∈ s.closedListeners) :
    ln ∈ (syncTenant listen s q).closedListeners := by
  unfold syncTenant
  split
  · exact h
  · split
    · exact StopTenantListener_closed_mono s q ln h
    · split
      · exact h
      · unfold startTenantListener StartKeepAliveRoutine
        split
        · exact h
        · split <;> exact h

theorem syncListener_closed_mono (s : Registry) (q : String) (ln : Listener)
    (h : ln ∈ s.closedListeners) : ln ∈ (syncListener s q).closedListeners := by
  unfold syncListener
  split
  · exact h
  · split
    · exact h
    · simp [h]

/-- Reconciliation never reopens a listener: what was closed stays in the
record of closed listeners. -/
theorem SyncListeners_closed_mono (listen : ListenOracle) (s : Registry) (ln : Listener)
    (h : ln ∈ s.closedListeners) : ln ∈ (SyncListeners listen s).closedListeners := by
  unfold SyncListeners
  have h1 : ∀ (ks : List String) (s : Registry), ln ∈ s.closedListeners →
      ln ∈ (ks.foldl (syncTenant listen) s).closedListeners := by
    intro ks
    induction ks with
    | nil => intro s h; exact h
    | cons q r ih => intro s h; exact ih _ (syncTenant_closed_mono listen s q ln h)
  have h2 : ∀ (ks : List String) (s : Registry), ln ∈ s.closedListeners →
      ln ∈ (ks.foldl syncListener s).closedListeners := by
    intro ks
    induction ks with
    | nil => intro s h; exact h
    | cons q r ih => intro s h; exact ih _ (syncListener_closed_mono s q ln h)
  exact h2 _ _ (h1 _ _ h)

/-- After reconciliation, with every bind succeeding, a tenant has a name and
a listener. -/
theorem SyncListeners_Served (listen : ListenOracle) (s : Registry)
    (hbind : ∀ i port, (listen i port).isSome = true) (P : String) :
    Served (SyncListeners listen s) P :=
  foldl_syncListener_Served _ _ P (firstLoop_Served listen hbind s P)

theorem patchLoop_split (s : Registry) (pre post : List Tenant) (r : Tenant) :
    patchLoop s (pre ++ r :: post) = patchLoop (patchOne (patchLoop s pre) r) post := by
  simp [patchLoop, List.foldl_append]

/-- C6 (counterexample). The registry holds a tenant at the empty port, with
its listener; a batch with the one record `Remove = true` for the empty port
removes nothing: the tenant and the listener are there after the patch loop
and after the reconciliation, and no listener was closed. -/
theorem C6_patch_removal_counterexample :
    registryNoPort.Tenants.get patchRemoveNoPort.Port = some tenantNoPort ∧
    patchRemoveNoPort.Remove = true ∧
    (patchLoop registryNoPort [patchRemoveNoPort]).Tenants.get patchRemoveNoPort.Port
      = some tenantNoPort ∧
    (SyncListeners listenAll (patchLoop registryNoPort [patchRemoveNoPort])).Tenants.get
      patchRemoveNoPort.Port = some tenantNoPort ∧
    (SyncListeners listenAll (patchLoop registryNoPort [patchRemoveNoPort])).Listeners.get
      patchRemoveNoPort.Port = some ⟨1⟩ ∧
    (SyncListeners listenAll (patchLoop registryNoPort [patchRemoveNoPort])).closedListeners
      = [] := by
  decide

/-- C6 (as amended). For every registry state with a tenant at the non-empty
port `P` and every batch `pre ++ r :: post` in which `r` has `Remove = true`
and port `P` and no record of `post` has port `P`, whatever the other fields
of `r` are: after the patch loop, and after the reconciliation that follows,
neither `Tenants` nor `Listeners` has an entry for `P`, and the listener that
was bound at `P` has been closed. -/
theorem C6_patch_removal (listen : ListenOracle) (s : Registry) (pre post : List Tenant)
    (r : Tenant) (P : String) (hP : P ≠ "") (hr : r.Port = P) (hrm : r.Remove = true)
    (hex : (s.Tenants.get P).isSome = true) (hpost : ∀ x ∈ post, x.Port ≠ P) :
    (patchLoop s (pre ++ r :: post)).Tenants.get P = none ∧
    (patchLoop s (pre ++ r :: post)).Listeners.get P = none ∧
    (SyncListeners listen (patchLoop s (pre ++ r :: post))).Tenants.get P = none ∧
    (SyncListeners listen (patchLoop s (pre ++ r :: post))).Listeners.get P = none ∧
    ∀ ln, s.Listeners.get P = some ln →
      ln ∈ (patchLoop s (pre ++ r :: post)).closedListeners ∧
      ln ∈ (SyncListeners listen (patchLoop s (pre ++ r :: post))).closedListeners := by
  rw [patchLoop_split]
  have h1 : LiveOrGone (patchLoop s pre) P := patchLoop_LiveOrGone pre P hP s (Or.inl hex)
  have h2 : Gone (patchOne (patchLoop s pre) r) P :=
    patchOne_remove_Gone _ r P hP hr hrm h1
  have h3 := patchLoop_other post P (patchOne (patchLoop s pre) r) hpost
  have h4 : Gone (patchLoop (patchOne (patchLoop s pre) r) post) P :=
    ⟨by rw [h3.1]; exact h2.1, by rw [h3.2]; exact h2.2⟩
  have h5 := SyncListeners_Gone listen _ P (Or.inr h4)
  refine ⟨h4.1, h4.2, h5.1, h5.2, ?_⟩
  intro ln hln
  have h6 : BoundOrClosed (patchLoop s pre) P ln :=
    patchLoop_BoundOrClosed pre P ln hP s (Or.inl ⟨hln, hex⟩)
  have h7 := patchOne_remove_closed _ r P ln hP hr hrm h6
  have h8 := patchLoop_closed_mono post _ ln h7
  exact ⟨h8, SyncListeners_closed_mono listen _ ln h8⟩

/-- Witness of C6 (as amended): the tenant "A" on port 3000 is removed and
its listener 1 is closed. -/
theorem C6_patch_removal_witness :
    ("3000" : String) ≠ "" ∧ patchRemove.Port = "3000" ∧ patchRemove.Remove = true ∧
    (registryA.Tenants.get "3000").isSome = true ∧
    (∀ x ∈ ([] : List Tenant), x.Port ≠ "3000") ∧
    ((patchLoop registryA ([] ++ patchRemove :: [])).Tenants.get "3000" = none ∧
    (patchLoop registryA ([] ++ patchRemove :: [])).Listeners.get "3000" = none ∧
    (SyncListeners listenAll (patchLoop registryA ([] ++ patchRemove :: []))).Tenants.get
      "3000" = none ∧
    (SyncListeners listenAll (patchLoop registryA ([] ++ patchRemove :: []))).Listeners.get
      "3000" = none ∧
    ∀ ln, registryA.Listeners.get "3000" = some ln →
      ln ∈ (patchLoop registryA ([] ++ patchRemove :: [])).closedListeners ∧
      ln ∈ (SyncListeners listenAll
        (patchLoop registryA ([] ++ patchRemove :: []))).closedListeners) :=
  ⟨by decide, rfl, rfl, by decide, by simp,
    C6_patch_removal listenAll registryA [] [] patchRemove "3000" (by decide) rfl rfl
      (by decide) (by simp)⟩

/-! ## Creation by patch -/

/-- C7 (counterexample). On the empty registry, a patch record for the new
port 5000 that has no `Name` and `Remove = false` creates a tenant that the
reconciliation triggered by the patch purges: afterwards there is no tenant
and no listener at port 5000, although `net.Listen` would bind any port. -/
theorem C7_create_on_patch_counterexample :
    patchBare.Port ≠ "" ∧ Registry.init.Tenants.get patchBare.Port = none ∧
    patchBare.Remove = false ∧
    (patchLoop Registry.init [patchBare]).Tenants.get patchBare.Port = some patchBare ∧
    (SyncListeners listenAll (patchLoop Registry.init [patchBare])).Tenants.get
      patchBare.Port = none ∧
    (SyncListeners listenAll (patchLoop Registry.init [patchBare])).Listeners.get
      patchBare.Port = none := by
  decide

/-- C7 (as amended). For every registry state and every patch record with a
non-empty `Port` that is not in the registry, `Remove = false` and a non-empty
`Name`: after the patch loop and the reconciliation it triggers, every bind
attempt succeeding, `Tenants` holds the record at that port and `Listeners`
holds a listener for that port. -/
theorem C7_create_on_patch (listen : ListenOracle) (s : Registry) (pt : Tenant)
    (hbind : ∀ i port, (listen i port).isSome = true)
    (hport : pt.Port ≠ "") (hnew : s.Tenants.get pt.Port = none)
    (hrm : pt.Remove = false) (hname : pt.Name ≠ "") :
    (SyncListeners listen (patchLoop s [pt])).Tenants.get pt.Port = some pt ∧
    ((SyncListeners listen (patchLoop s [pt])).Listeners.get pt.Port).isSome = true := by
  have h1 : (patchLoop s [pt]).Tenants.get pt.Port = some pt := by
    show (patchOne s pt).Tenants.get pt.Port = _
    unfold patchOne
    simp [hport, hrm, hnew, GoMap.get_set_self]
  have h2 := SyncListeners_keeps listen _ _ _ h1 hname
  exact ⟨h2, (SyncListeners_Served listen _ hbind pt.Port pt h2).2⟩

/-- Witness of C7 (as amended): the tenant "B" on the new port 5000. -/
theorem C7_create_on_patch_witness :
    (∀ i port, (listenAll i port).isSome = true) ∧
    patchNew.Port ≠ "" ∧ registryA.Tenants.get patchNew.Port = none ∧
    patchNew.Remove = false ∧ patchNew.Name ≠ "" ∧
    (SyncListeners listenAll (patchLoop registryA [patchNew])).Tenants.get patchNew.Port
      = some patchNew ∧
    ((SyncListeners listenAll (patchLoop registryA [patchNew])).Listeners.get
      patchNew.Port).isSome = true :=
  ⟨fun _ _ => rfl, by decide, by decide, rfl, by decide,
    C7_create_on_patch listenAll registryA patchNew (fun _ _ => rfl) (by decide)
      (by decide) rfl (by decide)⟩

/-! ## Reload from the tenants file -/

theorem mergeOne_Tenants_ne (s : Registry) (ft : Tenant) {P : String} (h : P ≠ ft.Port) :
    (mergeOne s ft).Tenants.get P = s.Tenants.get P := by
  unfold mergeOne
  split <;> simp [GoMap.get_set_ne _ _ h]

theorem mergeOne_existing (s : Registry) (ft t1 : Tenant)
    (h : s.Tenants.get ft.Port = some t1) :
    (mergeOne s ft).Tenants.get ft.Port = some (mergeExisting t1 ft) := by
  unfold mergeOne
  simp [h, GoMap.get_set_self]

@[simp] theorem mergeOne_Listeners (s : Registry) (ft : Tenant) :
    (mergeOne s ft).Listeners = s.Listeners := by
  unfold mergeOne
  split <;> rfl

theorem foldl_mergeOne_other (fts : List Tenant) (P : String) :
    ∀ s : Registry, (∀ x ∈ fts, x.Port ≠ P) →
      (fts.foldl mergeOne s).Tenants.get P = s.Tenants.get P := by
  induction fts with
  | nil => intro s _; rfl
  | cons ft r ih =>
    intro s h
    have hft : P ≠ ft.Port := fun e => h ft (List.mem_cons_self ft r) e.symm
    show (r.foldl mergeOne (mergeOne s ft)).Tenants.get P = _
    rw [ih _ (fun x hx => h x (List.mem_cons_of_mem ft hx)), mergeOne_Tenants_ne s ft hft]

/-- The first loop of `LoadTenantsFromFile` keeps the runtime part of a tenant
that is in the registry. -/
theorem foldl_mergeOne_SameRuntime (fts : List Tenant) (P : String) (t : Tenant) :
    ∀ s : Registry, (∃ t1, s.Tenants.get P = some t1 ∧ SameRuntime t t1) →
      ∃ t1, (fts.foldl mergeOne s).Tenants.get P = some t1 ∧ SameRuntime t t1 := by
  induction fts with
  | nil => intro s h; exact h
  | cons ft r ih =>
    intro s h
    apply ih (mergeOne s ft)
    obtain ⟨t1, h1, hrt⟩ := h
    by_cases hft : P = ft.Port
    · subst hft
      exact ⟨mergeExisting t1 ft, mergeOne_existing s ft t1 h1, hrt⟩
    · exact ⟨t1, by rw [mergeOne_Tenants_ne s ft hft]; exact h1, hrt⟩

@[simp] theorem markRemoved_Listeners (filePorts : List String) (s : Registry) (q : String) :
    (markRemoved filePorts s q).Listeners = s.Listeners := by
  unfold markRemoved
  split
  · rfl
  · split <;> rfl

theorem markRemoved_Tenants_ne (filePorts : List String) (s : Registry) {q P : String}
    (h : P ≠ q) : (markRemoved filePorts s q).Tenants.get P = s.Tenants.get P := by
  unfold markRemoved
  split
  · rfl
  · split
    · rfl
    · simp [GoMap.get_set_ne _ _ h]

/-- The loop "Mark removals" leaves the tenant of a port of the file as it
is. -/
theorem foldl_markRemoved_listed (filePorts : List String) (P : String)
    (hP : P ∈ filePorts) (ks : List String) :
    ∀ s : Registry, (ks.foldl (markRemoved filePorts) s).Tenants.get P = s.Tenants.get P := by
  induction ks with
  | nil => intro s; rfl
  | cons q r ih =>
    intro s
    show (r.foldl (markRemoved filePorts) (markRemoved filePorts s q)).Tenants.get P = _
    rw [ih]
    by_cases hq : P = q
    · subst hq
      simp [markRemoved, hP]
    · exact markRemoved_Tenants_ne filePorts s hq

/-- The loop "Mark removals" at a port that is not in the file. -/
theorem markRemoved_Marked (filePorts : List String) (s : Registry) (q P : String)
    (hP : P ∉ filePorts) :
    (Marked s P → Marked (markRemoved filePorts s q) P) ∧
    ((s.Tenants.get P).isSome = true →
      ((markRemoved filePorts s q).Tenants.get P).isSome = true ∧
      (P = q → Marked (markRemoved filePorts s q) P)) := by
  by_cases hq : P = q
  · subst hq
    unfold markRemoved Marked
    simp only [hP, if_false]
    split
    · next ht => simp [ht]
    · next t ht => simp [ht, GoMap.get_set_self]
  · unfold Marked
    rw [markRemoved_Tenants_ne filePorts s hq]
    exact ⟨fun h => h, fun h => ⟨h, fun e => absurd e hq⟩⟩

theorem foldl_markRemoved_Marked (filePorts : List String) (P : String)
    (hP : P ∉ filePorts) (ks : List String) :
    ∀ s : Registry, ((P ∈ ks ∧ (s.Tenants.get P).isSome = true) ∨ Marked s P) →
      Marked (ks.foldl (markRemoved filePorts) s) P := by
  induction ks with
  | nil =>
    intro s h
    rcases h with h | h
    · cases h.1
    · exact h
  | cons q r ih =>
    intro s h
    apply ih (markRemoved filePorts s q)
    have hm := markRemoved_Marked filePorts s q P hP
    rcases h with h | h
    · rcases List.mem_cons.mp h.1 with h1 | h1
      · exact Or.inr ((hm.2 h.2).2 h1)
      · exact Or.inl ⟨h1, (hm.2 h.2).1⟩
    · exact Or.inr (hm.1 h)

@[simp] theorem mergeTenants_Listeners (s : Registry) (fts : List Tenant) :
    (mergeTenants s fts).Listeners = s.Listeners := by
  have h1 : ∀ (l : List Tenant) (s : Registry), (l.foldl mergeOne s).Listeners = s.Listeners := by
    intro l
    induction l with
    | nil => intro s; rfl
    | cons ft r ih => intro s; simp [ih]
  have h2 : ∀ (fp ks : List String) (s : Registry),
      (ks.foldl (markRemoved fp) s).Listeners = s.Listeners := by
    intro fp ks
    induction ks with
    | nil => intro s; rfl
    | cons q r ih => intro s; simp [ih]
  simp [mergeTenants, h1, h2]

/-- A list with a record for port `P` splits at its last record for `P`. -/
theorem exists_last_record (l : List Tenant) (P : String) (h : ∃ x ∈ l, x.Port = P) :
    ∃ pre ft post, l = pre ++ ft :: post ∧ ft.Port = P ∧ ∀ x ∈ post, x.Port ≠ P := by
  induction l with
  | nil =>
    obtain ⟨x, hx, _⟩ := h
    cases hx
  | cons a r ih =>
    by_cases hr : ∃ x ∈ r, x.Port = P
    · obtain ⟨pre, ft, post, e, hft, hpost⟩ := ih hr
      exact ⟨a :: pre, ft, post, by rw [e]; rfl, hft, hpost⟩
    · obtain ⟨x, hx, hxP⟩ := h
      rcases List.mem_cons.mp hx with hx | hx
      · subst hx
        exact ⟨[], x, r, rfl, hxP, fun y hy e => hr ⟨y, hy, e⟩⟩
      · exact absurd ⟨x, hx, hxP⟩ hr

/-- A tenant of the registry whose port is in the file, last in the record
`ft`: the merge stores the configuration of `ft` and keeps the runtime part. -/
theorem mergeTenants_listed (s : Registry) (pre post : List Tenant) (ft t : Tenant)
    (P : String) (hget : s.Tenants.get P = some t) (hft : ft.Port = P)
    (hpost : ∀ x ∈ post, x.Port ≠ P) :
    ∃ t0, SameRuntime t t0 ∧
      (mergeTenants s (pre ++ ft :: post)).Tenants.get P = some (mergeExisting t0 ft) := by
  obtain ⟨t0, h0, hrt⟩ := foldl_mergeOne_SameRuntime pre P t s
    ⟨t, hget, rfl, rfl, rfl, rfl, rfl, rfl, rfl⟩
  refine ⟨t0, hrt, ?_⟩
  unfold mergeTenants
  have hmem : P ∈ (pre ++ ft :: post).map Tenant.Port := by
    simp only [List.map_append, List.map_cons, List.mem_append, List.mem_cons]
    exact Or.inr (Or.inl hft.symm)
  show (List.foldl (markRemoved ((pre ++ ft :: post).map Tenant.Port))
    ((pre ++ ft :: post).foldl mergeOne s)
    ((pre ++ ft :: post).foldl mergeOne s).Tenants.keys).Tenants.get P = _
  rw [foldl_markRemoved_listed _ P hmem, List.foldl_append, List.foldl_cons,
    foldl_mergeOne_other post P _ hpost]
  subst hft
  exact mergeOne_existing _ ft t0 h0

/-- A tenant of the registry whose port is not in the file is marked as
removed by the merge. -/
theorem mergeTenants_absent (s : Registry) (fts : List Tenant) (P : String)
    (hex : (s.Tenants.get P).isSome = true) (habs : ∀ x ∈ fts, x.Port ≠ P) :
    Marked (mergeTenants s fts) P := by
  unfold mergeTenants
  have hP : P ∉ fts.map Tenant.Port := by
    intro h
    obtain ⟨x, hx, e⟩ := List.mem_map.mp h
    exact habs x hx e
  have h1 : ((fts.foldl mergeOne s).Tenants.get P).isSome = true := by
    rw [foldl_mergeOne_other fts P s habs]; exact hex
  apply foldl_markRemoved_Marked _ P hP
  exact Or.inl ⟨(GoMap.mem_keys_iff _ _).mpr h1, h1⟩

/-- C8. Merge of an existing tenant: for every registry state (lock free),
every record list `pre ++ ft :: post` in which `ft` is the last record for
port `P`, and a tenant `t` in the registry at `P`: `LoadTenantsFromFile`
returns without error, and afterwards the tenant at `P` has the `Name`,
`Comment`, `StartByte`, `EndByte`, `SimpleAuthToken`, OAuth `ClientID`,
`ClientSecret`, `TokenURL`, `Scopes`, `KeepAliveIntervalSec`, `KeepAliveFile`
and `Endpoint` of `ft`, and the `BytesReceived`, `BytesSent`, `Errors`,
`AccessToken`, `TokenType`, `TokenExpiry` and `Connections` of `t`. -/
theorem C8_merge_existing (s : Registry) (pre post : List Tenant) (ft t : Tenant)
    (P : String) (hlock : s.lockHeld = false) (hget : s.Tenants.get P = some t)
    (hft : ft.Port = P) (hpost : ∀ x ∈ post, x.Port ≠ P) :
    ∃ s1 t1, LoadTenantsFromFile (FileContent.records (pre ++ ft :: post)) s
        = Run.done none s1 ∧
      s1.Tenants.get P = some t1 ∧
      t1.Name = ft.Name ∧ t1.Comment = ft.Comment ∧
      t1.StartByte = ft.StartByte ∧ t1.EndByte = ft.EndByte ∧
      t1.SimpleAuthToken = ft.SimpleAuthToken ∧
      t1.OAuthCredentials.ClientID = ft.OAuthCredentials.ClientID ∧
      t1.OAuthCredentials.ClientSecret = ft.OAuthCredentials.ClientSecret ∧
      t1.OAuthCredentials.TokenURL = ft.OAuthCredentials.TokenURL ∧
      t1.OAuthCredentials.Scopes = ft.OAuthCredentials.Scopes ∧
      t1.KeepAliveIntervalSec = ft.KeepAliveIntervalSec ∧
      t1.KeepAliveFile = ft.KeepAliveFile ∧
      t1.Endpoint = ft.Endpoint ∧
      t1.BytesReceived = t.BytesReceived ∧ t1.BytesSent = t.BytesSent ∧
      t1.Errors = t.Errors ∧
      t1.OAuthCredentials.AccessToken = t.OAuthCredentials.AccessToken ∧
      t1.OAuthCredentials.TokenType = t.OAuthCredentials.TokenType ∧
      t1.OAuthCredentials.TokenExpiry = t.OAuthCredentials.TokenExpiry ∧
      t1.Connections = t.Connections := by
  obtain ⟨t0, hrt, h1⟩ := mergeTenants_listed { s with lockHeld := true } pre post ft t P
    hget hft hpost
  obtain ⟨r1, r2, r3, r4, r5, r6, r7⟩ := hrt
  refine ⟨{ mergeTenants { s with lockHeld := true } (pre ++ ft :: post) with
      lockHeld := false }, mergeExisting t0 ft, ?_, h1, ?_⟩
  · simp [LoadTenantsFromFile, hlock]
  · exact ⟨rfl, rfl, rfl, rfl, rfl, rfl, rfl, rfl, rfl, rfl, rfl, rfl,
      r1, r2, r3, r4, r5, r6, r7⟩

/-- Witness of C8: the tenant "A" (7 bytes received) and a file with a record
for port 3000 followed by a record for port 4000. -/
theorem C8_merge_existing_witness :
    registryA.lockHeld = false ∧ registryA.Tenants.get "3000" = some tenantA ∧
    fileA.Port = "3000" ∧ (∀ x ∈ [fileB], x.Port ≠ "3000") ∧
    ∃ s1 t1, LoadTenantsFromFile (FileContent.records ([] ++ fileA :: [fileB])) registryA
        = Run.done none s1 ∧
      s1.Tenants.get "3000" = some t1 ∧ t1.Name = fileA.Name ∧
      t1.Endpoint = fileA.Endpoint ∧ t1.BytesReceived = tenantA.BytesReceived := by
  refine ⟨rfl, rfl, rfl, by decide, ?_⟩
  obtain ⟨s1, t1, h1, h2, h3, _, _, _, _, _, _, _, _, _, _, h4, h5, _⟩ :=
    C8_merge_existing registryA [] [fileB] fileA tenantA "3000" rfl rfl rfl (by decide)
  exact ⟨s1, t1, h1, h2, h3, h4, h5⟩

/-- C9. Absence means removal: for every registry state (lock free), every
record list and every port `P` of the registry that is the port of no record:
`LoadTenantsFromFile` returns without error, right afterwards the tenant at `P`
has an empty `Name`, and after the following `SyncListeners` neither `Tenants`
nor `Listeners` has an entry for `P`. -/
theorem C9_absence_means_removal (listen : ListenOracle) (s : Registry)
    (fileTenants : List Tenant) (P : String) (hlock : s.lockHeld = false)
    (hex : (s.Tenants.get P).isSome = true) (habs : ∀ x ∈ fileTenants, x.Port ≠ P) :
    ∃ s1, LoadTenantsFromFile (FileContent.records fileTenants) s = Run.done none s1 ∧
      (∃ t1, s1.Tenants.get P = some t1 ∧ t1.Name = "") ∧
      (SyncListeners listen s1).Tenants.get P = none ∧
      (SyncListeners listen s1).Listeners.get P = none := by
  have h1 : Marked (mergeTenants { s with lockHeld := true } fileTenants) P :=
    mergeTenants_absent _ fileTenants P hex habs
  have h2 : Marked { mergeTenants { s with lockHeld := true } fileTenants with
      lockHeld := false } P := h1
  have h3 := SyncListeners_Gone listen _ P (Or.inl h2)
  refine ⟨_, ?_, h2, h3.1, h3.2⟩
  simp [LoadTenantsFromFile, hlock]

/-- Witness of C9: the tenant "A" on port 3000 and a file that lists only
port 4000. -/
theorem C9_absence_means_removal_witness :
    registryA.lockHeld = false ∧ (registryA.Tenants.get "3000").isSome = true ∧
    (∀ x ∈ [fileB], x.Port ≠ "3000") ∧
    ∃ s1, LoadTenantsFromFile (FileContent.records [fileB]) registryA = Run.done none s1 ∧
      (∃ t1, s1.Tenants.get "3000" = some t1 ∧ t1.Name = "") ∧
      (SyncListeners listenAll s1).Tenants.get "3000" = none ∧
      (SyncListeners listenAll s1).Listeners.get "3000" = none :=
  ⟨rfl, by decide, by decide,
    C9_absence_means_removal listenAll registryA [fileB] "3000" rfl (by decide)
      (by decide)⟩

/-! ## Token cache -/

/-- A token that is not valid for 10 more seconds is refreshed with exactly
one request, when the request can be built. -/
theorem getOrRefreshToken_requests (http : TokenEndpoint) (now : Int) (t : Tenant)
    (hv : ¬ t.OAuthCredentials.TokenExpiry > now + 10 * second)
    (hn : http.newRequestOk t.OAuthCredentials.TokenURL = true) :
    (getOrRefreshToken http now t).requests =
      [⟨t.OAuthCredentials.TokenURL, tokenForm t.OAuthCredentials⟩] := by
  unfold getOrRefreshToken
  simp only [hv, hn, if_false, Bool.not_true]
  generalize http.send _ = reply
  cases reply with
  | transportError => rfl
  | response status body =>
    by_cases hs : status < 200 ∨ status > 299
    · simp [hs]
    · cases body <;> simp [hs]

/-- C10 (counterexample). The cached token expires 5 seconds from `now = 0`
and the token URL is ":", which `http.NewRequest` rejects:
`getOrRefreshToken` returns an error and sends no token request. -/
theorem C10_token_cache_counterexample :
    (tenantWithToken ":" (5 * second)).OAuthCredentials.TokenExpiry = 0 + 5 * second ∧
    (getOrRefreshToken tokenServer 0 (tenantWithToken ":" (5 * second))).requests = [] ∧
    (getOrRefreshToken tokenServer 0 (tenantWithToken ":" (5 * second))).err
      = some "new request error" := by
  decide

/-- C10 (as amended). Token cache validity: for every tenant, instant `now`
and token endpoint, `getOrRefreshToken` returns the cached `AccessToken`
without error, without a token request and without a change of the tenant if
and only if `TokenExpiry` is strictly later than `now + 10 s`. When it is not
(5 seconds from now, or exactly 10 seconds from now) and `http.NewRequest`
accepts the `TokenURL`, exactly one token request is sent; when
`http.NewRequest` rejects the `TokenURL`, an error is returned and no request
is sent. -/
theorem C10_token_cache (http : TokenEndpoint) (now : Int) (t : Tenant) :
    (((getOrRefreshToken http now t).err = none ∧
      (getOrRefreshToken http now t).token = t.OAuthCredentials.AccessToken ∧
      (getOrRefreshToken http now t).requests = [] ∧
      (getOrRefreshToken http now t).t = t) ↔
      t.OAuthCredentials.TokenExpiry > now + 10 * second) ∧
    (¬ t.OAuthCredentials.TokenExpiry > now + 10 * second →
      http.newRequestOk t.OAuthCredentials.TokenURL = true →
      (getOrRefreshToken http now t).requests =
        [⟨t.OAuthCredentials.TokenURL, tokenForm t.OAuthCredentials⟩]) ∧
    (¬ t.OAuthCredentials.TokenExpiry > now + 10 * second →
      http.newRequestOk t.OAuthCredentials.TokenURL = false →
      (getOrRefreshToken http now t).requests = [] ∧
      (getOrRefreshToken http now t).err ≠ none ∧
      (getOrRefreshToken http now t).t = t) := by
  by_cases hv : t.OAuthCredentials.TokenExpiry > now + 10 * second
  · simp [getOrRefreshToken, hv]
  · by_cases hn : http.newRequestOk t.OAuthCredentials.TokenURL = true
    · have hreq := getOrRefreshToken_requests http now t hv hn
      refine ⟨?_, fun _ _ => hreq, ?_⟩
      · simp [hv, hreq]
      · intro _ h
        rw [hn] at h
        cases h
    · simp only [Bool.not_eq_true] at hn
      simp [getOrRefreshToken, hv, hn]

/-- Witness of C10 (as amended), at `now = 0` with the token endpoint
`tokenServer`: an expiry one hour from now returns the cached token without a
request; an expiry 5 seconds from now and an expiry exactly 10 seconds from
now send one token request. -/
theorem C10_token_cache_witness :
    (getOrRefreshToken tokenServer 0 (tenantWithToken "http://auth/" hour)).requests = [] ∧
    (getOrRefreshToken tokenServer 0 (tenantWithToken "http://auth/" hour)).token
      = "cached" ∧
    (getOrRefreshToken tokenServer 0 (tenantWithToken "http://auth/" (5 * second))).requests
      = [⟨"http://auth/", tokenForm (tenantWithToken "http://auth/"
          (5 * second)).OAuthCredentials⟩] ∧
    (getOrRefreshToken tokenServer 0 (tenantWithToken "http://auth/" (10 * second))).requests
      = [⟨"http://auth/", tokenForm (tenantWithToken "http://auth/"
          (10 * second)).OAuthCredentials⟩] := by
  have h1 := (C10_token_cache tokenServer 0 (tenantWithToken "http://auth/" hour)).1.mpr
    (by decide)
  have h2 := (C10_token_cache tokenServer 0 (tenantWithToken "http://auth/" (5 * second))).2.1
    (by decide) (by decide)
  have h3 := (C10_token_cache tokenServer 0 (tenantWithToken "http://auth/" (10 * second))).2.1
    (by decide) (by decide)
  exact ⟨h1.2.2.1, h1.2.1, h2, h3⟩

/-! ## Framing: no nesting, desync, failed echo -/

theorem afterLast_snoc (S b : Nat) (p : List Nat) :
    afterLast S (p ++ [b]) =
      if b = S then some [] else (afterLast S p).map (fun m => m ++ [b]) := by
  induction p with
  | nil => by_cases h : b = S <;> simp [afterLast, h]
  | cons a r ih =>
    show (match afterLast S (r ++ [b]) with
      | some m => some m
      | none => if a = S then some (r ++ [b]) else none) = _
    rw [ih]
    by_cases h : b = S
    · simp [h]
    · simp only [h, if_false]
      cases hr : afterLast S r with
      | none => by_cases ha : a = S <;> simp [afterLast, hr, ha]
      | some m => simp [afterLast, hr]

theorem afterLast_isSome_of_mem (S : Nat) (p : List Nat) (h : S ∈ p) :
    (afterLast S p).isSome = true := by
  induction p with
  | nil => cases h
  | cons c r ih =>
    cases hc : afterLast S r with
    | some _ => simp [afterLast, hc]
    | none =>
      rcases List.mem_cons.mp h with h1 | h1
      · simp [afterLast, hc, h1.symm]
      · have h2 := ih h1
        simp [hc] at h2

/-- What `afterLast` returns are the bytes after the last `S`. -/
theorem afterLast_spec (S : Nat) (p : List Nat) :
    ∀ m, afterLast S p = some m → (∃ pre, p = pre ++ S :: m) ∧ S ∉ m := by
  induction p with
  | nil => intro m h; simp [afterLast] at h
  | cons a r ih =>
    intro m h
    cases hr : afterLast S r with
    | some m0 =>
      simp only [afterLast, hr, Option.some.injEq] at h
      subst h
      obtain ⟨⟨pre, hpre⟩, hS⟩ := ih m0 hr
      exact ⟨⟨a :: pre, by rw [hpre]; rfl⟩, hS⟩
    | none =>
      simp only [afterLast, hr] at h
      by_cases ha : a = S
      · simp only [ha, if_true, Option.some.injEq] at h
        subst h
        refine ⟨⟨[], by simp [ha]⟩, ?_⟩
        intro hmem
        have h2 := afterLast_isSome_of_mem S r hmem
        simp [hr] at h2
      · simp [ha] at h

theorem openMessage_spec (S E : Nat) (p m : List Nat) (h : openMessage S E p = some m) :
    (∃ pre, p = pre ++ S :: m) ∧ S ∉ m ∧ E ∉ m := by
  unfold openMessage at h
  cases hr : afterLast S p with
  | none => simp [hr] at h
  | some m0 =>
    simp only [hr] at h
    by_cases hE : E ∈ m0
    · simp [hE] at h
    · simp only [hE, if_false, Option.some.injEq] at h
      subst h
      exact ⟨(afterLast_spec S p m0 hr).1, (afterLast_spec S p m0 hr).2, hE⟩

theorem openMessage_snoc (S E b : Nat) (p : List Nat) :
    openMessage S E (p ++ [b]) =
      if b = S then some []
      else if b = E then none
      else (openMessage S E p).map (fun m => m ++ [b]) := by
  unfold openMessage
  rw [afterLast_snoc]
  by_cases hS : b = S
  · simp [hS]
  · simp only [hS, if_false]
    cases hr : afterLast S p with
    | none => by_cases hE : b = E <;> simp [hE]
    | some m =>
      by_cases hE : b = E
      · simp [hE]
      · have hE2 : ¬ E = b := fun h => hE h.symm
        by_cases hm : E ∈ m <;> simp [hE, hE2, hm]

/-- What one iteration of the loop does to the framing state. -/
theorem handleByte_framing (w : WriteOracle) (s : ConnState) (b : Nat) :
    (handleByte w s b).t.StartByte = s.t.StartByte ∧
    (handleByte w s b).t.EndByte = s.t.EndByte ∧
    (handleByte w s b).inMessage =
      (if b = s.t.StartByte then true
       else if b = s.t.EndByte then false else s.inMessage) ∧
    (handleByte w s b).buffer =
      (if b = s.t.StartByte then []
       else if b = s.t.EndByte then s.buffer
       else if s.inMessage then s.buffer ++ [b] else s.buffer) ∧
    (handleByte w s b).dispatched =
      s.dispatched ++
        (if b ≠ s.t.StartByte ∧ b = s.t.EndByte ∧ s.inMessage = true then [s.buffer]
         else []) ∧
    (handleByte w s b).written =
      s.written ++
        (if b ≠ s.t.StartByte ∧ b = s.t.EndByte ∧ s.inMessage = true
         then [s.t.StartByte :: (s.buffer ++ [s.t.EndByte])]
         else []) := by
  unfold handleByte
  by_cases hS : b = s.t.StartByte
  · simp [hS]
  · by_cases hE : b = s.t.EndByte
    · by_cases hin : s.inMessage = true
      · simp only [hS, hE, hin, if_true, if_false]
        by_cases hf : (w s.written.length
            (s.t.StartByte :: (s.buffer ++ [s.t.EndByte]))).failed = true
        · simp [hf, logError, hE ▸ hS]
        · simp [hf, hE ▸ hS]
      · simp [hS, hE, hin, hE ▸ hS]
    · by_cases hin : s.inMessage = true <;> simp [hS, hE, hin]

theorem runBytes_snoc (w : WriteOracle) (s : ConnState) (p : List Nat) (b : Nat) :
    runBytes w s (p ++ [b]) = handleByte w (runBytes w s p) b := by
  simp [runBytes, List.foldl_append]

/-- The state of the loop follows the open message of the specification:
the loop is in a message exactly when a message is open, the buffer is that
message, and no dispatched message holds a delimiter. -/
theorem runBytes_open (w : WriteOracle) (t : Tenant) (p : List Nat) :
    (runBytes w (initConn t) p).t.StartByte = t.StartByte ∧
    (runBytes w (initConn t) p).t.EndByte = t.EndByte ∧
    (runBytes w (initConn t) p).inMessage = (openMessage t.StartByte t.EndByte p).isSome ∧
    (∀ m, openMessage t.StartByte t.EndByte p = some m →
      (runBytes w (initConn t) p).buffer = m) ∧
    (∀ m ∈ (runBytes w (initConn t) p).dispatched, t.StartByte ∉ m ∧ t.EndByte ∉ m) := by
  induction p using List.reverseRecOn with
  | nil => simp [runBytes, initConn, openMessage, afterLast]
  | append_singleton p b ih =>
    obtain ⟨hS, hE, hin, hbuf, hdis⟩ := ih
    have hf := handleByte_framing w (runBytes w (initConn t) p) b
    rw [hS, hE] at hf
    obtain ⟨f1, f2, f3, f4, f5, _⟩ := hf
    rw [runBytes_snoc, openMessage_snoc]
    refine ⟨f1, f2, ?_, ?_, ?_⟩
    · rw [f3, hin]
      by_cases h1 : b = t.StartByte
      · simp [h1]
      · by_cases h2 : b = t.EndByte
        · simp [h2, h2 ▸ h1]
        · simp [h1, h2]
    · intro m hm
      rw [f4]
      by_cases h1 : b = t.StartByte
      · simp only [h1, if_true, Option.some.injEq] at hm ⊢
        exact hm
      · by_cases h2 : b = t.EndByte
        · simp [h2, h2 ▸ h1] at hm
        · simp only [h1, h2, if_false] at hm ⊢
          cases ho : openMessage t.StartByte t.EndByte p with
          | none => simp [ho] at hm
          | some m0 =>
            simp only [ho, Option.map_some', Option.some.injEq] at hm
            rw [hin, ho, hbuf m0 ho]
            simp [hm]
    · intro m hm
      rw [f5] at hm
      rcases List.mem_append.mp hm with hm | hm
      · exact hdis m hm
      · by_cases hc : b ≠ t.StartByte ∧ b = t.EndByte ∧
            (runBytes w (initConn t) p).inMessage = true
        · rw [if_pos hc] at hm
          have hm2 := List.mem_singleton.mp hm
          rw [hin] at hc
          obtain ⟨m0, ho⟩ := Option.isSome_iff_exists.mp hc.2.2
          have hsp := openMessage_spec _ _ _ _ ho
          rw [hm2, hbuf m0 ho]
          exact hsp.2
        · rw [if_neg hc] at hm
          cases hm

/-- C18. No nested framing: for a tenant with `StartByte ≠ EndByte`, every
socket behaviour, every sequence `p` of bytes received so far and every next
byte `b`: the loop dispatches a message on `b` exactly when `b` is the EndByte
and a message is open, it dispatches and echoes (between the delimiters) that
open message, and the open message is the run of bytes after the most recent
StartByte, which holds neither delimiter; a StartByte makes the open message
empty, whatever was buffered; and no dispatched message holds the StartByte or
the EndByte. -/
theorem C18_no_nested_framing (w : WriteOracle) (t : Tenant) (p : List Nat) (b : Nat)
    (hne : t.StartByte ≠ t.EndByte) :
    (runBytes w (initConn t) (p ++ [b])).dispatched =
      (runBytes w (initConn t) p).dispatched ++
        (if b = t.EndByte then (openMessage t.StartByte t.EndByte p).toList else []) ∧
    (runBytes w (initConn t) (p ++ [b])).written =
      (runBytes w (initConn t) p).written ++
        (if b = t.EndByte then
          ((openMessage t.StartByte t.EndByte p).toList).map
            (fun m => t.StartByte :: (m ++ [t.EndByte]))
         else []) ∧
    (∀ m, openMessage t.StartByte t.EndByte p = some m →
      (∃ pre, p = pre ++ t.StartByte :: m) ∧ t.StartByte ∉ m ∧ t.EndByte ∉ m) ∧
    openMessage t.StartByte t.EndByte (p ++ [t.StartByte]) = some [] ∧
    (runBytes w (initConn t) (p ++ [t.StartByte])).buffer = [] ∧
    (∀ m ∈ (runBytes w (initConn t) (p ++ [b])).dispatched,
      t.StartByte ∉ m ∧ t.EndByte ∉ m) := by
  obtain ⟨hS, hE, hin, hbuf, _⟩ := runBytes_open w t p
  have hf := handleByte_framing w (runBytes w (initConn t) p) b
  rw [hS, hE] at hf
  obtain ⟨_, _, _, _, f5, f6⟩ := hf
  have hopen : openMessage t.StartByte t.EndByte (p ++ [t.StartByte]) = some [] := by
    rw [openMessage_snoc]; simp
  refine ⟨?_, ?_, fun m hm => openMessage_spec _ _ _ _ hm, hopen,
    (runBytes_open w t (p ++ [t.StartByte])).2.2.2.1 [] hopen,
    (runBytes_open w t (p ++ [b])).2.2.2.2⟩
  · rw [runBytes_snoc, f5, hin]
    by_cases hb : b = t.EndByte
    · have hb2 : ¬ t.EndByte = t.StartByte := fun h => hne h.symm
      cases ho : openMessage t.StartByte t.EndByte p with
      | none => simp [hb]
      | some m => simp [hb, hb2, hbuf m ho]
    · simp [hb]
  · rw [runBytes_snoc, f6, hin]
    by_cases hb : b = t.EndByte
    · have hb2 : ¬ t.EndByte = t.StartByte := fun h => hne h.symm
      cases ho : openMessage t.StartByte t.EndByte p with
      | none => simp [hb]
      | some m => simp [hb, hb2, hbuf m ho]
    · simp [hb]

/-- Witness of C18: delimiters 2 and 3; after the bytes `2 9 2 7` the EndByte
dispatches the message `7`, the bytes after the second StartByte. -/
theorem C18_no_nested_framing_witness :
    tenantA.StartByte ≠ tenantA.EndByte ∧
    (runBytes fullWrite (initConn tenantA) ([2, 9, 2, 7] ++ [3])).dispatched =
      (runBytes fullWrite (initConn tenantA) [2, 9, 2, 7]).dispatched ++ [[7]] ∧
    (runBytes fullWrite (initConn tenantA) ([2, 9, 2, 7] ++ [3])).written =
      (runBytes fullWrite (initConn tenantA) [2, 9, 2, 7]).written ++ [[2, 7, 3]] := by
  have h := C18_no_nested_framing fullWrite tenantA [2, 9, 2, 7] 3 (by decide)
  refine ⟨by decide, ?_, ?_⟩
  · rw [h.1]; decide
  · rw [h.2.1]; decide

/-- C19. Desync is tolerated: for every tenant, every socket behaviour and
every byte `b` other than the StartByte that is read while Idle (the EndByte
included), the iteration changes nothing but `BytesReceived`, which grows by
one: the loop stays Idle, writes nothing, dispatches nothing, leaves
`BytesSent` and `Errors` as they are, and goes on to the next read. -/
theorem C19_desync_tolerated (w : WriteOracle) (s : ConnState) (b : Nat)
    (hidle : s.inMessage = false) (hb : b ≠ s.t.StartByte) :
    handleByte w s b =
      { s with t := { s.t with BytesReceived := u64 (s.t.BytesReceived + 1) } } ∧
    (handleByte w s b).inMessage = false ∧
    (handleByte w s b).written = s.written ∧
    (handleByte w s b).dispatched = s.dispatched ∧
    (handleByte w s b).t.BytesSent = s.t.BytesSent ∧
    (handleByte w s b).t.Errors = s.t.Errors ∧
    (handleByte w s b).t.BytesReceived = u64 (s.t.BytesReceived + 1) ∧
    (∀ reads, connLoop w s (ReadResult.byte b :: reads)
      = connLoop w (handleByte w s b) reads) := by
  have h : handleByte w s b =
      { s with t := { s.t with BytesReceived := u64 (s.t.BytesReceived + 1) } } := by
    unfold handleByte
    by_cases hE : b = s.t.EndByte
    · simp [hE, hE ▸ hb, hidle]
    · simp [hb, hE, hidle]
  refine ⟨h, ?_, ?_, ?_, ?_, ?_, ?_, fun _ => rfl⟩ <;> simp [h, hidle]

/-- Witness of C19: the EndByte 3 read in the initial state. -/
theorem C19_desync_tolerated_witness :
    (initConn tenantA).inMessage = false ∧ (3 : Nat) ≠ (initConn tenantA).t.StartByte ∧
    (handleByte fullWrite (initConn tenantA) 3).inMessage = false ∧
    (handleByte fullWrite (initConn tenantA) 3).written = [] ∧
    (handleByte fullWrite (initConn tenantA) 3).dispatched = [] ∧
    (handleByte fullWrite (initConn tenantA) 3).t.BytesReceived = u64 (7 + 1) :=
  ⟨rfl, by decide,
    (C19_desync_tolerated fullWrite (initConn tenantA) 3 rfl (by decide)).2.1,
    (C19_desync_tolerated fullWrite (initConn tenantA) 3 rfl (by decide)).2.2.1,
    (C19_desync_tolerated fullWrite (initConn tenantA) 3 rfl (by decide)).2.2.2.1,
    (C19_desync_tolerated fullWrite (initConn tenantA) 3 rfl (by decide)).2.2.2.2.2.2.1⟩

/-- The framing state after an iteration does not depend on the outcome of
the write: two runs that agree on it before a byte agree on it after it. -/
theorem handleByte_SameFraming (w1 w2 : WriteOracle) (s1 s2 : ConnState) (b : Nat)
    (h : SameFraming s1 s2) : SameFraming (handleByte w1 s1 b) (handleByte w2 s2 b) := by
  obtain ⟨⟨n1, po1, c1, sb1, eb1, br1, bs1, er1, sa1, oa1, ki1, kf1, co1, mf1, ep1, rm1⟩,
    buf1, in1, d1, wr1, cl1⟩ := s1
  obtain ⟨⟨n2, po2, c2, sb2, eb2, br2, bs2, er2, sa2, oa2, ki2, kf2, co2, mf2, ep2, rm2⟩,
    buf2, in2, d2, wr2, cl2⟩ := s2
  obtain ⟨h1, h2, h3, h4, h5, h6⟩ := h
  simp only [Tenant.mk.injEq] at h1 h2 h3 h4 h5 h6
  obtain ⟨e1, e2, e3, e4, e5, e6, _, _, e9, e10, e11, e12, e13, e14, e15, e16⟩ := h6
  subst h1 h2 h3 h4 h5 e1 e2 e3 e4 e5 e6 e9 e10 e11 e12 e13 e14 e15 e16
  unfold SameFraming handleByte
  by_cases hS : b = sb1
  · simp [hS]
  · by_cases hE : b = eb1
    · subst hE
      by_cases hin : in1 = true
      · simp only [hS, hin, if_true, if_false]
        generalize w1 wr1.length _ = r1
        generalize w2 wr1.length _ = r2
        obtain ⟨k1, f1⟩ := r1
        obtain ⟨k2, f2⟩ := r2
        cases f1 <;> cases f2 <;> simp [logError]
      · simp [hS, hin]
    · by_cases hin : in1 = true <;> simp [hS, hE, hin]

theorem runBytes_SameFraming (w1 w2 : WriteOracle) (bs : List Nat) :
    ∀ s1 s2 : ConnState, SameFraming s1 s2 →
      SameFraming (runBytes w1 s1 bs) (runBytes w2 s2 bs) := by
  induction bs with
  | nil => intro s1 s2 h; exact h
  | cons b r ih => intro s1 s2 h; exact ih _ _ (handleByte_SameFraming w1 w2 s1 s2 b h)

theorem SameFraming_refl (s : ConnState) : SameFraming s s :=
  ⟨rfl, rfl, rfl, rfl, rfl, rfl⟩

theorem handleByte_EchoOffset (w w' : WriteOracle) (k n : Nat) (s1 s2 : ConnState) (b : Nat)
    (hagree : ∀ i data, i ≠ k → w i data = w' i data) (h : EchoOffset k n s1 s2) :
    EchoOffset k n (handleByte w s1 b) (handleByte w' s2 b) := by
  obtain ⟨hsf, hk, herr, hsent⟩ := h
  refine ⟨handleByte_SameFraming w w' s1 s2 b hsf, ?_, ?_, ?_⟩
  · rw [(handleByte_framing w s1 b).2.2.2.2.2]
    simp only [List.length_append]
    omega
  all_goals
    obtain ⟨⟨n1, po1, c1, sb1, eb1, br1, bs1, er1, sa1, oa1, ki1, kf1, co1, mf1, ep1, rm1⟩,
      buf1, in1, d1, wr1, cl1⟩ := s1
    obtain ⟨⟨n2, po2, c2, sb2, eb2, br2, bs2, er2, sa2, oa2, ki2, kf2, co2, mf2, ep2, rm2⟩,
      buf2, in2, d2, wr2, cl2⟩ := s2
    obtain ⟨h1, h2, h3, h4, h5, h6⟩ := hsf
    simp only [Tenant.mk.injEq] at h1 h2 h3 h4 h5 h6 herr hsent hk
    obtain ⟨e1, e2, e3, e4, e5, e6, _, _, e9, e10, e11, e12, e13, e14, e15, e16⟩ := h6
    subst h1 h2 h3 h4 h5 e1 e2 e3 e4 e5 e6 e9 e10 e11 e12 e13 e14 e15 e16
    have hidx : wr1.length ≠ k := by omega
    unfold handleByte
    by_cases hS : b = sb1
    · simp [hS, herr, hsent]
    · by_cases hE : b = eb1
      · subst hE
        by_cases hin : in1 = true
        · simp only [hS, hin, if_true, if_false]
          rw [hagree wr1.length _ hidx]
          generalize w' wr1.length _ = r
          obtain ⟨kr, fr⟩ := r
          cases fr
          · simp only [Bool.false_eq_true, if_false]
            first
              | exact herr
              | (rw [hsent]; unfold u64; omega)
          · simp only [if_true, logError]
            first
              | (rw [herr])
              | exact hsent
        · simp [hS, hin, herr, hsent]
      · by_cases hin : in1 = true <;> simp [hS, hE, hin, herr, hsent]

theorem runBytes_EchoOffset (w w' : WriteOracle) (k n : Nat)
    (hagree : ∀ i data, i ≠ k → w i data = w' i data) (bs : List Nat) :
    ∀ s1 s2 : ConnState, EchoOffset k n s1 s2 →
      EchoOffset k n (runBytes w s1 bs) (runBytes w' s2 bs) := by
  induction bs with
  | nil => intro s1 s2 h; exact h
  | cons b r ih =>
    intro s1 s2 h
    exact ih _ _ (handleByte_EchoOffset w w' k n s1 s2 b hagree h)

/-- The iteration that completes a message: what it does for a failed and
for a successful echo write. -/
theorem handleByte_complete (w : WriteOracle) (s : ConnState)
    (hin : s.inMessage = true) (hne : s.t.EndByte ≠ s.t.StartByte) :
    handleByte w s s.t.EndByte =
      { s with
        t := if (w s.written.length
                  (s.t.StartByte :: (s.buffer ++ [s.t.EndByte]))).failed = true
             then { s.t with BytesReceived := u64 (s.t.BytesReceived + 1),
                             Errors := u64 (s.t.Errors + 1) }
             else { s.t with BytesReceived := u64 (s.t.BytesReceived + 1),
                             BytesSent := u64 (s.t.BytesSent +
                               (w s.written.length
                                 (s.t.StartByte :: (s.buffer ++ [s.t.EndByte]))).n) },
        inMessage := false,
        dispatched := s.dispatched ++ [s.buffer],
        written := s.written ++ [s.t.StartByte :: (s.buffer ++ [s.t.EndByte])] } := by
  unfold handleByte
  simp only [hne, hin, if_true, if_false, List.singleton_append]
  by_cases hf : (w s.written.length
      (s.t.StartByte :: (s.buffer ++ [s.t.EndByte]))).failed = true
  · simp [hf, logError]
  · simp [hf, u64_add_u64_right]

/-- C20. Echo write failure is not fatal: for every state of the loop inside
a message and every socket behaviour `w` whose write of the echo fails, the
iteration on the EndByte adds one to `Errors`, leaves `BytesSent` as it is,
dispatches the buffered message, goes back to Idle and goes on to the next
read. Compared with a socket `w1` whose echo write succeeds and which behaves
like `w` on every other write, after every sequence `rest` of later bytes the
two runs have the same framing state, dispatched messages and echoes; they
differ only by the one error and by the bytes of the successful echo. -/
theorem C20_echo_failure_not_fatal (w w1 : WriteOracle) (s : ConnState) (rest : List Nat)
    (hin : s.inMessage = true) (hne : s.t.EndByte ≠ s.t.StartByte)
    (hfail : (w s.written.length
      (s.t.StartByte :: (s.buffer ++ [s.t.EndByte]))).failed = true)
    (hok : (w1 s.written.length
      (s.t.StartByte :: (s.buffer ++ [s.t.EndByte]))).failed = false)
    (hagree : ∀ i data, i ≠ s.written.length → w i data = w1 i data) :
    (handleByte w s s.t.EndByte).t.Errors = u64 (s.t.Errors + 1) ∧
    (handleByte w s s.t.EndByte).t.BytesSent = s.t.BytesSent ∧
    (handleByte w s s.t.EndByte).dispatched = s.dispatched ++ [s.buffer] ∧
    (handleByte w s s.t.EndByte).inMessage = false ∧
    (∀ reads, connLoop w s (ReadResult.byte s.t.EndByte :: reads)
      = connLoop w (handleByte w s s.t.EndByte) reads) ∧
    SameFraming (runBytes w s (s.t.EndByte :: rest)) (runBytes w1 s (s.t.EndByte :: rest)) ∧
    (runBytes w s (s.t.EndByte :: rest)).t.Errors =
      u64 ((runBytes w1 s (s.t.EndByte :: rest)).t.Errors + 1) ∧
    (runBytes w1 s (s.t.EndByte :: rest)).t.BytesSent =
      u64 ((runBytes w s (s.t.EndByte :: rest)).t.BytesSent +
        (w1 s.written.length (s.t.StartByte :: (s.buffer ++ [s.t.EndByte]))).n) := by
  have ha := handleByte_complete w s hin hne
  have hb := handleByte_complete w1 s hin hne
  simp only [hfail, if_true] at ha
  simp only [hok, Bool.false_eq_true, if_false] at hb
  have h0 : EchoOffset s.written.length
      (w1 s.written.length (s.t.StartByte :: (s.buffer ++ [s.t.EndByte]))).n
      (handleByte w s s.t.EndByte) (handleByte w1 s s.t.EndByte) := by
    refine ⟨handleByte_SameFraming w w1 s s _ (SameFraming_refl s), ?_, ?_, ?_⟩
    · rw [ha]; simp
    · rw [ha, hb]
    · rw [ha, hb]
  have h1 := runBytes_EchoOffset w w1 _ _ hagree rest _ _ h0
  refine ⟨?_, ?_, ?_, ?_, fun _ => rfl, h1.1, h1.2.2.1, h1.2.2.2⟩ <;> rw [ha]

/-- Witness of C20: tenant "A" after the bytes `2 9`; the echo of the message
`9` fails on the socket `failFirstWrite` and succeeds on `fullWrite`. -/
theorem C20_echo_failure_not_fatal_witness :
    inMessageA.inMessage = true ∧ inMessageA.t.EndByte ≠ inMessageA.t.StartByte ∧
    (handleByte failFirstWrite inMessageA 3).t.Errors = u64 (0 + 1) ∧
    (handleByte failFirstWrite inMessageA 3).t.BytesSent = 0 ∧
    (handleByte failFirstWrite inMessageA 3).dispatched = [[9]] ∧
    (runBytes failFirstWrite inMessageA (3 :: [2, 8, 3])).dispatched = [[9], [8]] ∧
    (runBytes fullWrite inMessageA (3 :: [2, 8, 3])).dispatched = [[9], [8]] := by
  have h := C20_echo_failure_not_fatal failFirstWrite fullWrite inMessageA [2, 8, 3]
    (by decide) (by decide) (by decide) (by decide)
    (by
      intro i data hi
      have hi0 : i ≠ 0 := hi
      simp [failFirstWrite, fullWrite, hi0])
  exact ⟨by decide, by decide, h.1, h.2.1, h.2.2.1, by decide, by decide⟩

/-! ## Token refresh -/

/-- What `getOrRefreshToken` stores after a successful token response. -/
theorem getOrRefreshToken_success (http : TokenEndpoint) (now : Int) (t : Tenant)
    (status : Int) (resp : TokenResp)
    (hv : ¬ t.OAuthCredentials.TokenExpiry > now + 10 * second)
    (hn : http.newRequestOk t.OAuthCredentials.TokenURL = true)
    (hsend : http.send ⟨t.OAuthCredentials.TokenURL, tokenForm t.OAuthCredentials⟩
      = TokenReply.response status (some resp))
    (hstatus : 200 ≤ status ∧ status ≤ 299) :
    (getOrRefreshToken http now t).err = none ∧
    (getOrRefreshToken http now t).token = resp.AccessToken ∧
    (getOrRefreshToken http now t).t.OAuthCredentials.AccessToken = resp.AccessToken ∧
    (getOrRefreshToken http now t).t.OAuthCredentials.TokenType =
      (if resp.TokenType ≠ "" then resp.TokenType else "Bearer") ∧
    (getOrRefreshToken http now t).t.OAuthCredentials.TokenExpiry =
      (if resp.ExpiresIn > 0 then now + i64 (second * resp.ExpiresIn) else now + hour) := by
  have hs : ¬ (status < 200 ∨ status > 299) := by omega
  unfold getOrRefreshToken
  simp only [hv, hn, hsend, hs, if_false, Bool.not_true]
  simp

/-- The seconds of `expires_in` fit a `time.Duration` up to 9223372036. -/
theorem i64_seconds (e : Int) (h0 : 0 < e) (h1 : e ≤ 9223372036) :
    i64 (second * e) = second * e := by
  unfold i64 second
  omega

/-- C11 (the code does not do what the claim says). The token endpoint
answers 200 with `expires_in = 9223372037` at `now = 0`: the multiplication
`time.Second * time.Duration(9223372037)` wraps around in `int64`, and the
expiry stored is 9223372036709551616 ns before `now` instead of 9223372037
seconds after it. -/
theorem C11_token_expiry_wraps :
    (getOrRefreshToken tokenServerHuge 0 (tenantWithToken "http://auth/" 0)).err = none ∧
    (getOrRefreshToken tokenServerHuge 0
      (tenantWithToken "http://auth/" 0)).t.OAuthCredentials.TokenExpiry
        = 0 - 9223372036709551616 ∧
    (getOrRefreshToken tokenServerHuge 0
      (tenantWithToken "http://auth/" 0)).t.OAuthCredentials.TokenExpiry < 0 ∧
    (getOrRefreshToken tokenServerHuge 0
      (tenantWithToken "http://auth/" 0)).t.OAuthCredentials.TokenExpiry
        ≠ 0 + 9223372037 * second := by
  decide

@[simp] theorem sendForward_tokenRequests (fw : Forwarder) (t : Tenant)
    (reqs : List TokenRequest) (req : OutRequest) :
    (sendForward fw t reqs req).tokenRequests = reqs := by
  unfold sendForward
  split
  · rfl
  · split <;> rfl

@[simp] theorem sendForward_posts (fw : Forwarder) (t : Tenant)
    (reqs : List TokenRequest) (req : OutRequest) :
    (sendForward fw t reqs req).posts = [req] := by
  unfold sendForward
  split
  · rfl
  · split <;> rfl

/-- C16. Failed token refresh is atomic: for every tenant whose cached token
is not valid and whose token request can be built, when the request ends in a
transport error, in a status outside 200..299 or in a body that does not
decode: `getOrRefreshToken` returns an error, has sent exactly that one
request and leaves the tenant record (so its `AccessToken`, `TokenType` and
`TokenExpiry`) as it was; and a run of `handleCompleteMessage` that gets to the
token request, or any run for a tenant without `SimpleAuthToken`, sends no POST
to the endpoint, adds exactly one to `Errors` and leaves the cached token as
it was. -/
theorem C16_failed_refresh_atomic (fw : Forwarder) (now : Int) (t : Tenant) (msg : List Nat)
    (hv : ¬ t.OAuthCredentials.TokenExpiry > now + 10 * second)
    (hn : fw.token.newRequestOk t.OAuthCredentials.TokenURL = true)
    (hfail :
      fw.token.send ⟨t.OAuthCredentials.TokenURL, tokenForm t.OAuthCredentials⟩
        = TokenReply.transportError ∨
      (∃ status body,
        fw.token.send ⟨t.OAuthCredentials.TokenURL, tokenForm t.OAuthCredentials⟩
          = TokenReply.response status body ∧ (status < 200 ∨ status > 299)) ∨
      (∃ status,
        fw.token.send ⟨t.OAuthCredentials.TokenURL, tokenForm t.OAuthCredentials⟩
          = TokenReply.response status none)) :
    ((getOrRefreshToken fw.token now t).err ≠ none ∧
      (getOrRefreshToken fw.token now t).requests =
        [⟨t.OAuthCredentials.TokenURL, tokenForm t.OAuthCredentials⟩] ∧
      (getOrRefreshToken fw.token now t).t = t) ∧
    ((handleCompleteMessage fw now t msg).tokenRequests ≠ [] ∨ t.SimpleAuthToken = "" →
      (handleCompleteMessage fw now t msg).posts = [] ∧
      (handleCompleteMessage fw now t msg).t.Errors = u64 (t.Errors + 1) ∧
      (handleCompleteMessage fw now t msg).t.OAuthCredentials = t.OAuthCredentials ∧
      (handleCompleteMessage fw now t msg).tokenRequests.length ≤ 1) := by
  have hreq := getOrRefreshToken_requests fw.token now t hv hn
  have hr : (getOrRefreshToken fw.token now t).err ≠ none ∧
      (getOrRefreshToken fw.token now t).t = t := by
    unfold getOrRefreshToken
    simp only [hv, hn, if_false, Bool.not_true]
    rcases hfail with h | ⟨status, body, h, hs⟩ | ⟨status, h⟩
    · simp [h]
    · simp [h, hs]
    · by_cases hs : status < 200 ∨ status > 299 <;> simp [h, hs]
  refine ⟨⟨hr.1, hreq, hr.2⟩, ?_⟩
  intro hreach
  have hsimple : t.SimpleAuthToken = "" := by
    rcases hreach with h | h
    · by_contra hne
      apply h
      unfold handleCompleteMessage
      cases encodeMessage fw t msg with
      | none => rfl
      | some bc =>
        by_cases hu : fw.newRequestOk t.Endpoint = true
        · simp [hu, hne]
        · simp [hu]
    · exact h
  unfold handleCompleteMessage
  cases encodeMessage fw t msg with
  | none => simp [logError]
  | some bc =>
    by_cases hu : fw.newRequestOk t.Endpoint = true
    · simp only [hu, hsimple, Bool.not_true, if_false, ne_eq, not_true_eq_false]
      cases he : (getOrRefreshToken fw.token now t).err with
      | none => exact absurd he hr.1
      | some e => simp [hr.2, hreq, logError]
    · simp [hu, logError]

/-- Witness of C16: the cached token expired and the token endpoint answers
503. -/
theorem C16_failed_refresh_atomic_witness :
    (¬ (tenantWithToken "http://auth/" 0).OAuthCredentials.TokenExpiry > 0 + 10 * second) ∧
    (getOrRefreshToken tokenServerDown 0 (tenantWithToken "http://auth/" 0)).requests =
      [⟨"http://auth/", tokenForm (tenantWithToken "http://auth/" 0).OAuthCredentials⟩] ∧
    (getOrRefreshToken tokenServerDown 0 (tenantWithToken "http://auth/" 0)).t =
      tenantWithToken "http://auth/" 0 ∧
    (handleCompleteMessage (forwarderWith tokenServerDown) 0
      (tenantWithToken "http://auth/" 0) [1, 2]).posts = [] ∧
    (handleCompleteMessage (forwarderWith tokenServerDown) 0
      (tenantWithToken "http://auth/" 0) [1, 2]).t.Errors = u64 (0 + 1) := by
  have h := C16_failed_refresh_atomic (forwarderWith tokenServerDown) 0
    (tenantWithToken "http://auth/" 0) [1, 2] (by decide) (by decide)
    (Or.inr (Or.inl ⟨503, none, rfl, by decide⟩))
  exact ⟨by decide, h.1.2.1, h.1.2.2, (h.2 (Or.inr rfl)).1, (h.2 (Or.inr rfl)).2.1⟩

/-! ## Message format -/

/-- Every POST of `handleCompleteMessage` goes to the endpoint and carries the
body and the content type chosen by the format switch. -/
theorem handleCompleteMessage_posts (fw : Forwarder) (now : Int) (t : Tenant)
    (msg : List Nat) (req : OutRequest)
    (h : req ∈ (handleCompleteMessage fw now t msg).posts) :
    ∃ body ct, encodeMessage fw t msg = some (body, ct) ∧ req.url = t.Endpoint ∧
      req.body = body ∧ ("Content-Type", ct) ∈ req.headers := by
  unfold handleCompleteMessage at h
  cases he : encodeMessage fw t msg with
  | none => simp [he] at h
  | some bc =>
    obtain ⟨body, ct⟩ := bc
    refine ⟨body, ct, rfl, ?_⟩
    simp only [he] at h
    by_cases hu : fw.newRequestOk t.Endpoint = true
    · by_cases hs : t.SimpleAuthToken = ""
      · simp only [hu, hs, Bool.not_true, if_false, ne_eq, not_true_eq_false] at h
        cases hr : (getOrRefreshToken fw.token now t).err with
        | none =>
          simp only [hr, Bool.false_eq_true, if_false, sendForward_posts,
            List.mem_singleton] at h
          subst h
          simp
        | some e => simp [hr] at h
      · simp only [hu, hs, Bool.not_true, Bool.false_eq_true, if_false, ne_eq,
          not_false_eq_true, if_true, sendForward_posts, List.mem_singleton] at h
        subst h
        simp
    · simp [hu] at h

/-- C15. Format selection: `handleCompleteMessage` looks at `MessageFormat`
only through `strings.ToLower`. When the lower-case format is "text" the body
is the message itself with content type text/plain; when it is "xml" the body
is the XML encoding with content type application/xml; for every other format,
the empty string included, body and content type are those produced for a
format whose lower case is "json". Every POST carries that body and content
type. -/
theorem C15_format_selection (fw : Forwarder) (now : Int) (t : Tenant) (msg : List Nat) :
    (fw.toLower t.MessageFormat = "text" →
      encodeMessage fw t msg = some (msg, "text/plain")) ∧
    (fw.toLower t.MessageFormat = "xml" →
      encodeMessage fw t msg =
        (fw.xmlMarshal t.Name msg).map (fun body => (body, "application/xml"))) ∧
    (fw.toLower t.MessageFormat ≠ "text" → fw.toLower t.MessageFormat ≠ "xml" →
      ∀ f, fw.toLower f = "json" →
        encodeMessage fw t msg = encodeMessage fw { t with MessageFormat := f } msg) ∧
    (∀ f, fw.toLower f = fw.toLower t.MessageFormat →
      encodeMessage fw { t with MessageFormat := f } msg = encodeMessage fw t msg) ∧
    (∀ req ∈ (handleCompleteMessage fw now t msg).posts,
      ∃ body ct, encodeMessage fw t msg = some (body, ct) ∧ req.url = t.Endpoint ∧
        req.body = body ∧ ("Content-Type", ct) ∈ req.headers) := by
  refine ⟨?_, ?_, ?_, ?_, fun req h => handleCompleteMessage_posts fw now t msg req h⟩
  · intro h
    simp [encodeMessage, h]
  · intro h
    simp [encodeMessage, h]
  · intro h1 h2 f hf
    by_cases h3 : fw.toLower t.MessageFormat = "json" <;>
      simp [encodeMessage, h1, h2, h3, hf]
  · intro f hf
    simp [encodeMessage, hf]

/-- Witness of C15, with lower case of ASCII letters for `strings.ToLower`:
the format "TeXt" gives the message itself as text/plain, and the empty format
gives what "JSON" gives. -/
theorem C15_format_selection_witness :
    encodeMessage (forwarderWith tokenServer) { tenantA with MessageFormat := "TeXt" } [7, 8]
      = some ([7, 8], "text/plain") ∧
    encodeMessage (forwarderWith tokenServer) { tenantA with MessageFormat := "" } [7, 8]
      = encodeMessage (forwarderWith tokenServer) { tenantA with MessageFormat := "JSON" }
          [7, 8] :=
  ⟨(C15_format_selection (forwarderWith tokenServer) 0
      { tenantA with MessageFormat := "TeXt" } [7, 8]).1 (by decide),
   (C15_format_selection (forwarderWith tokenServer) 0
      { tenantA with MessageFormat := "" } [7, 8]).2.2.1 (by decide) (by decide) "JSON"
      (by decide)⟩

/-! ## Keep-alive -/

/-- The loop of `sendTenantKeepAlive` over the connections, from any state
of the counters: one write per connection that is not `nil`, in order, whatever
the outcomes are; the successful writes add their byte counts to `BytesSent`,
the failed ones add one each to `Errors`. -/
theorem foldl_keepAliveWrite (io : KeepAliveIO) (framed : List Nat) (cs : List Conn) :
    ∀ (acc : Tenant × List (Conn × List Nat)) (x y : Nat),
      acc.1.BytesSent = u64 x → acc.1.Errors = u64 y →
      (cs.foldl (keepAliveWrite io framed) acc).2 =
        acc.2 ++ (cs.filter (fun c => decide (c ≠ Conn.nil))).map (fun c => (c, framed)) ∧
      (cs.foldl (keepAliveWrite io framed) acc).1 =
        { acc.1 with
          BytesSent := u64 (x + sentBytes (keepAliveOutcomes io framed acc.2.length
            (cs.filter (fun c => decide (c ≠ Conn.nil))))),
          Errors := u64 (y + failedWrites (keepAliveOutcomes io framed acc.2.length
            (cs.filter (fun c => decide (c ≠ Conn.nil))))) } := by
  induction cs with
  | nil =>
    intro acc x y hx hy
    obtain ⟨t, ws⟩ := acc
    cases t
    simp_all [keepAliveOutcomes, sentBytes, failedWrites]
  | cons c r ih =>
    intro acc x y hx hy
    by_cases hc : c = Conn.nil
    · have hstep : keepAliveWrite io framed acc c = acc := by simp [keepAliveWrite, hc]
      rw [List.foldl_cons, hstep]
      simpa [hc] using ih acc x y hx hy
    · rw [List.foldl_cons]
      by_cases hf : (io.write acc.2.length c framed).failed = true
      · have hstep : keepAliveWrite io framed acc c =
            (logError acc.1, acc.2 ++ [(c, framed)]) := by
          simp [keepAliveWrite, hc, hf]
        rw [hstep]
        have h := ih (logError acc.1, acc.2 ++ [(c, framed)]) x (y + 1) hx
          (by simp [logError, hy, u64_add_u64])
        simp only [List.length_append, List.length_singleton] at h
        simp only [hc, ne_eq, not_false_eq_true, decide_True, List.filter_cons_of_pos,
          List.map_cons, keepAliveOutcomes, sentBytes, failedWrites, hf, if_true]
        refine ⟨by rw [h.1]; simp, ?_⟩
        rw [h.2]
        simp [logError, Nat.add_assoc]
      · have hstep : keepAliveWrite io framed acc c =
            ({ acc.1 with BytesSent := u64 (acc.1.BytesSent +
                u64 (io.write acc.2.length c framed).n) }, acc.2 ++ [(c, framed)]) := by
          simp [keepAliveWrite, hc, hf]
        rw [hstep]
        have h := ih ({ acc.1 with BytesSent := u64 (acc.1.BytesSent +
            u64 (io.write acc.2.length c framed).n) }, acc.2 ++ [(c, framed)])
          (x + (io.write acc.2.length c framed).n) y
          (by simp [hx, u64_add_u64, u64_add_u64_right]) hy
        simp only [List.length_append, List.length_singleton] at h
        simp only [hc, ne_eq, not_false_eq_true, decide_True, List.filter_cons_of_pos,
          List.map_cons, keepAliveOutcomes, sentBytes, failedWrites, hf, if_false]
        refine ⟨by rw [h.1]; simp, ?_⟩
        rw [h.2]
        simp [Nat.add_assoc]

/-- C12. Keep-alive broadcast: for every tenant record (its counters being
`uint64` values), every connection list and every pattern of write outcomes,
a tick of `sendTenantKeepAlive` that gets the lock and whose heartbeat
marshals to `xml` makes exactly one write of the same payload
`StartByte ++ xml ++ EndByte` to every connection of the list that is not
`nil`, in the order of the list, whatever the outcomes of the earlier writes
are; `BytesSent` grows by the sum of the byte counts of the successful writes
and `Errors` by the number of failed writes (in `uint64` arithmetic), and
nothing else in the record changes. -/
theorem C12_keep_alive_broadcast (io : KeepAliveIO) (s : Registry) (t : Tenant)
    (xml : List Nat) (hlock : s.lockHeld = false)
    (hxml : io.marshal (heartbeat io t) = some xml)
    (hsent : t.BytesSent < 2 ^ 64) (herr : t.Errors < 2 ^ 64) :
    ∃ r, sendTenantKeepAlive io s t = some r ∧
      r.writes = (t.Connections.filter (fun c => decide (c ≠ Conn.nil))).map
        (fun c => (c, t.StartByte :: (xml ++ [t.EndByte]))) ∧
      r.t.BytesSent = u64 (t.BytesSent + sentBytes
        (keepAliveOutcomes io (t.StartByte :: (xml ++ [t.EndByte])) 0
          (t.Connections.filter (fun c => decide (c ≠ Conn.nil))))) ∧
      r.t.Errors = u64 (t.Errors + failedWrites
        (keepAliveOutcomes io (t.StartByte :: (xml ++ [t.EndByte])) 0
          (t.Connections.filter (fun c => decide (c ≠ Conn.nil))))) ∧
      r.t = { t with BytesSent := r.t.BytesSent, Errors := r.t.Errors } := by
  have h := foldl_keepAliveWrite io (t.StartByte :: (xml ++ [t.EndByte])) t.Connections
    (t, []) t.BytesSent t.Errors
    (by show t.BytesSent = u64 t.BytesSent; unfold u64; omega)
    (by show t.Errors = u64 t.Errors; unfold u64; omega)
  simp only [List.nil_append, List.length_nil] at h
  refine ⟨⟨(t.Connections.foldl
      (keepAliveWrite io (t.StartByte :: (xml ++ [t.EndByte]))) (t, [])).1,
    [(t.KeepAliveFile, heartbeat io t)],
    (t.Connections.foldl
      (keepAliveWrite io (t.StartByte :: (xml ++ [t.EndByte]))) (t, [])).2⟩, ?_, h.1, ?_, ?_, ?_⟩
  · simp [sendTenantKeepAlive, hlock, hxml]
  · simp only [h.2]
  · simp only [h.2]
  · simp only [h.2]

/-- Witness of C12: the connections 5 and 6; the write to 5 fails, and the
payload `2 88 3` is still written to 6: 3 bytes sent, 1 error. -/
theorem C12_keep_alive_broadcast_witness :
    registryA.lockHeld = false ∧
    keepAliveIO.marshal (heartbeat keepAliveIO tenantConns) = some [88] ∧
    ∃ r, sendTenantKeepAlive keepAliveIO registryA tenantConns = some r ∧
      r.writes = [(⟨5⟩, [2, 88, 3]), (⟨6⟩, [2, 88, 3])] ∧
      r.t.BytesSent = 3 ∧ r.t.Errors = 1 := by
  obtain ⟨r, h1, h2, h3, h4, _⟩ := C12_keep_alive_broadcast keepAliveIO registryA
    tenantConns [88] rfl rfl (by decide) (by decide)
  refine ⟨rfl, rfl, r, h1, ?_, ?_, ?_⟩
  · rw [h2]; decide
  · rw [h3]; decide
  · rw [h4]; decide

/-! ## Reconciliation twice -/

theorem syncTenant_of_Served (listen : ListenOracle) (s : Registry) (q : String)
    (h : Served s q) : syncTenant listen s q = s := by
  unfold syncTenant
  cases ht : s.Tenants.get q with
  | none => rfl
  | some t =>
    obtain ⟨hname, hl⟩ := h t ht
    obtain ⟨ln, hln⟩ := Option.isSome_iff_exists.mp hl
    simp [hname, hln]

theorem syncListener_of_Owned (s : Registry) (q : String) (h : Owned s q) :
    syncListener s q = s := by
  unfold syncListener
  cases hl : s.Listeners.get q with
  | none => rfl
  | some ln =>
    have ht := h (by rw [hl]; rfl)
    obtain ⟨t, ht2⟩ := Option.isSome_iff_exists.mp ht
    simp [ht2]

/-- Reconciliation does nothing in a state in which every tenant has a name
and a listener and every listener has a tenant. -/
theorem SyncListeners_fixed (listen : ListenOracle) (s : Registry)
    (hS : ∀ P, Served s P) (hO : ∀ P, Owned s P) : SyncListeners listen s = s := by
  have h1 : ∀ ks : List String, ks.foldl (syncTenant listen) s = s := by
    intro ks
    induction ks with
    | nil => rfl
    | cons q r ih => rw [List.foldl_cons, syncTenant_of_Served listen s q (hS q), ih]
  have h2 : ∀ ks : List String, ks.foldl syncListener s = s := by
    intro ks
    induction ks with
    | nil => rfl
    | cons q r ih => rw [List.foldl_cons, syncListener_of_Owned s q (hO q), ih]
  unfold SyncListeners
  simp only [h1, h2]

/-- C13 (counterexample). The tenant "A" has no listener and `net.Listen`
fails: the first `SyncListeners` makes one bind attempt for port 3000, and the
second call, made right after it, makes another one. -/
theorem C13_idempotence_counterexample :
    (SyncListeners listenNone registryUnbound).listenCalls = ["3000"] ∧
    (SyncListeners listenNone (SyncListeners listenNone registryUnbound)).listenCalls
      = ["3000", "3000"] ∧
    ((SyncListeners listenAll (SyncListeners listenNone registryUnbound)).Listeners.get
      "3000").isSome = true ∧
    (SyncListeners listenNone registryUnbound).Listeners.get "3000" = none := by
  decide

/-- C13 (as amended). Reconciliation is idempotent after a call in which
every bind attempt succeeded: for every registry state, a second call of
`SyncListeners` made right after such a first call, whatever `net.Listen`
would do then, leaves the whole state as it is: no bind attempt, no listener
close, no goroutine started, `Tenants` and `Listeners` unchanged. -/
theorem C13_idempotence (listen listen2 : ListenOracle) (s : Registry)
    (hbind : ∀ i port, (listen i port).isSome = true) :
    SyncListeners listen2 (SyncListeners listen s) = SyncListeners listen s ∧
    (SyncListeners listen2 (SyncListeners listen s)).listenCalls
      = (SyncListeners listen s).listenCalls ∧
    (SyncListeners listen2 (SyncListeners listen s)).closedListeners
      = (SyncListeners listen s).closedListeners ∧
    (SyncListeners listen2 (SyncListeners listen s)).Tenants
      = (SyncListeners listen s).Tenants ∧
    (SyncListeners listen2 (SyncListeners listen s)).Listeners
      = (SyncListeners listen s).Listeners := by
  have h : SyncListeners listen2 (SyncListeners listen s) = SyncListeners listen s :=
    SyncListeners_fixed listen2 _ (fun P => SyncListeners_Served listen s hbind P)
      (fun P => secondLoop_Owned _ P)
  exact ⟨h, by rw [h], by rw [h], by rw [h], by rw [h]⟩

/-- Witness of C13 (as amended): the tenant "A" without listener; the first
call binds port 3000, the second call makes no further bind attempt. -/
theorem C13_idempotence_witness :
    (∀ i port, (listenAll i port).isSome = true) ∧
    (SyncListeners listenNone (SyncListeners listenAll registryUnbound)).listenCalls
      = ["3000"] ∧
    SyncListeners listenNone (SyncListeners listenAll registryUnbound)
      = SyncListeners listenAll registryUnbound :=
  ⟨fun _ _ => rfl,
    by
      rw [(C13_idempotence listenAll listenNone registryUnbound (fun _ _ => rfl)).2.1]
      decide,
    (C13_idempotence listenAll listenNone registryUnbound (fun _ _ => rfl)).1⟩

/-! ## Removal and the connections of the tenant -/

@[simp] theorem StopTenantListener_closedConns (s : Registry) (port : String) :
    (StopTenantListener s port).closedConns = s.closedConns := by
  unfold StopTenantListener; split <;> rfl

@[simp] theorem patchOne_closedConns (s : Registry) (pt : Tenant) :
    (patchOne s pt).closedConns = s.closedConns := by
  unfold patchOne
  split
  · rfl
  · split
    · split <;> simp
    · split <;> rfl

@[simp] theorem syncTenant_closedConns (listen : ListenOracle) (s : Registry) (q : String) :
    (syncTenant listen s q).closedConns = s.closedConns := by
  unfold syncTenant
  split
  · rfl
  · split
    · simp
    · split
      · rfl
      · unfold startTenantListener StartKeepAliveRoutine
        split
        · rfl
        · split <;> rfl

@[simp] theorem syncListener_closedConns (s : Registry) (q : String) :
    (syncListener s q).closedConns = s.closedConns := by
  unfold syncListener
  split
  · rfl
  · split <;> rfl

/-- Reconciliation closes no connection. -/
theorem SyncListeners_closedConns (listen : ListenOracle) (s : Registry) :
    (SyncListeners listen s).closedConns = s.closedConns := by
  have h1 : ∀ (ks : List String) (s : Registry),
      (ks.foldl (syncTenant listen) s).closedConns = s.closedConns := by
    intro ks
    induction ks with
    | nil => intro s; rfl
    | cons q r ih => intro s; simp [ih]
  have h2 : ∀ (ks : List String) (s : Registry),
      (ks.foldl syncListener s).closedConns = s.closedConns := by
    intro ks
    induction ks with
    | nil => intro s; rfl
    | cons q r ih => intro s; simp [ih]
  unfold SyncListeners
  simp only [h1, h2]

/-- The first loop of `SyncListeners` closes the listener of a tenant that is
marked as removed. -/
theorem foldl_syncTenant_closes (listen : ListenOracle) (P : String) (ln : Listener)
    (ks : List String) :
    ∀ s : Registry,
      ((P ∈ ks ∧ Marked s P ∧ s.Listeners.get P = some ln) ∨ ln ∈ s.closedListeners) →
      ln ∈ (ks.foldl (syncTenant listen) s).closedListeners := by
  induction ks with
  | nil =>
    intro s h
    rcases h with h | h
    · cases h.1
    · exact h
  | cons q r ih =>
    intro s h
    apply ih (syncTenant listen s q)
    rcases h with ⟨hmem, hmark, hln⟩ | h
    · by_cases hq : P = q
      · subst hq
        right
        obtain ⟨t, ht, hname⟩ := hmark
        unfold syncTenant
        simp only [ht, hname, if_true]
        exact StopTenantListener_closes s P ln hln
      · rcases List.mem_cons.mp hmem with h1 | h1
        · exact absurd h1 hq
        · exact Or.inl ⟨h1, (syncTenant_Marked listen s q P hmark).2 hq,
            by rw [syncTenant_Listeners_ne listen s hq]; exact hln⟩
    · exact Or.inr (syncTenant_closed_mono listen s q ln h)

theorem SyncListeners_closes (listen : ListenOracle) (s : Registry) (P : String)
    (ln : Listener) (hmark : Marked s P) (hln : s.Listeners.get P = some ln) :
    ln ∈ (SyncListeners listen s).closedListeners := by
  obtain ⟨t, ht, hname⟩ := hmark
  have h1 := foldl_syncTenant_closes listen P ln s.Tenants.keys s
    (Or.inl ⟨GoMap.mem_keys_of_get _ ht, ⟨t, ht, hname⟩, hln⟩)
  have h2 : ∀ (ks : List String) (s : Registry), ln ∈ s.closedListeners →
      ln ∈ (ks.foldl syncListener s).closedListeners := by
    intro ks
    induction ks with
    | nil => intro s h; exact h
    | cons q r ih => intro s h; exact ih _ (syncListener_closed_mono s q ln h)
  exact h2 _ _ h1

/-- C14 (counterexample). The tenant on port 3000 has the open connections
5 and 6 and the listener 1. After a patch record with `Remove = true`, and
likewise after `SyncListeners` has purged the tenant once its `Name` is empty,
the listener 1 is closed and `Close` was called on no connection. -/
theorem C14_removal_closes_connections_counterexample :
    registryConns.Tenants.get "3000" = some tenantConns ∧
    tenantConns.Connections = [⟨5⟩, ⟨6⟩] ∧
    (patchLoop registryConns [patchRemove]).Tenants.get "3000" = none ∧
    (patchLoop registryConns [patchRemove]).closedListeners = [⟨1⟩] ∧
    (patchLoop registryConns [patchRemove]).closedConns = [] ∧
    (SyncListeners listenAll (patchLoop registryConns [patchRemove])).closedConns = [] ∧
    (SyncListeners listenAll registryMarked).Tenants.get "3000" = none ∧
    (SyncListeners listenAll registryMarked).closedListeners = [⟨1⟩] ∧
    (SyncListeners listenAll registryMarked).closedConns = [] := by
  decide

/-- C14 (as amended). Removing a tenant closes its listener and no
connection: for every registry state with a tenant at port `P` and a listener
`ln` bound there, after a patch record with `Remove = true` for `P` (`P` not
empty), and likewise after `SyncListeners` when the `Name` of the tenant is
empty, `Tenants` and `Listeners` have no entry for `P`, `Close` was called on
`ln`, and `Close` was called on no connection: the connections of the tenant
stay open. -/
theorem C14_removal_closes_listener_only (listen : ListenOracle) (s : Registry)
    (pt t : Tenant) (P : String) (ln : Listener)
    (ht : s.Tenants.get P = some t) (hln : s.Listeners.get P = some ln) :
    (P ≠ "" → pt.Port = P → pt.Remove = true →
      (patchLoop s [pt]).Tenants.get P = none ∧
      (patchLoop s [pt]).Listeners.get P = none ∧
      ln ∈ (patchLoop s [pt]).closedListeners ∧
      (patchLoop s [pt]).closedConns = s.closedConns ∧
      (SyncListeners listen (patchLoop s [pt])).closedConns = s.closedConns) ∧
    (t.Name = "" →
      (SyncListeners listen s).Tenants.get P = none ∧
      (SyncListeners listen s).Listeners.get P = none ∧
      ln ∈ (SyncListeners listen s).closedListeners ∧
      (SyncListeners listen s).closedConns = s.closedConns) := by
  constructor
  · intro hP hpt hrm
    have hlive : LiveOrGone s P := Or.inl (by rw [ht]; rfl)
    have hgone := patchOne_remove_Gone s pt P hP hpt hrm hlive
    have hcl := patchOne_remove_closed s pt P ln hP hpt hrm
      (Or.inl ⟨hln, by rw [ht]; rfl⟩)
    have hs : patchLoop s [pt] = patchOne s pt := rfl
    rw [hs]
    exact ⟨hgone.1, hgone.2, hcl, patchOne_closedConns s pt,
      by rw [SyncListeners_closedConns, patchOne_closedConns]⟩
  · intro hname
    have hmark : Marked s P := ⟨t, ht, hname⟩
    have hgone := SyncListeners_Gone listen s P (Or.inl hmark)
    exact ⟨hgone.1, hgone.2, SyncListeners_closes listen s P ln hmark hln,
      SyncListeners_closedConns listen s⟩

/-- Witness of C14 (as amended): the tenant on port 3000 with the connections
5 and 6 is removed by a patch. -/
theorem C14_removal_closes_listener_only_witness :
    registryConns.Tenants.get "3000" = some tenantConns ∧
    registryConns.Listeners.get "3000" = some ⟨1⟩ ∧
    (patchLoop registryConns [patchRemove]).Tenants.get "3000" = none ∧
    (patchLoop registryConns [patchRemove]).Listeners.get "3000" = none ∧
    (⟨1⟩ : Listener) ∈ (patchLoop registryConns [patchRemove]).closedListeners ∧
    (patchLoop registryConns [patchRemove]).closedConns = registryConns.closedConns ∧
    (SyncListeners listenAll (patchLoop registryConns [patchRemove])).closedConns
      = registryConns.closedConns :=
  ⟨rfl, rfl,
    (C14_removal_closes_listener_only listenAll registryConns patchRemove tenantConns
      "3000" ⟨1⟩ rfl rfl).1 (by decide) rfl rfl⟩

/-! ## The lock around reconciliation -/

/-- What `patchSyncState` names is the argument of `SyncListeners` in
`handlePatchTenants`. -/
theorem patchAndSave_sync (listen : ListenOracle) (store : StoreOracle) (s : Registry)
    (patchTenants : List Tenant) :
    patchAndSave listen store s patchTenants =
      match patchSyncState s patchTenants with
      | none => Run.deadlock s
      | some s1 =>
        match SaveTenantsToFile store (SyncListeners listen s1) with
        | Run.deadlock s3 => Run.deadlock s3
        | Run.done (some _) s3 =>
          Run.done ⟨500, "Internal Server Error"⟩ { s3 with lockHeld := false }
        | Run.done none s3 =>
          Run.done ⟨200, "\x7b\"status\":\"ok\"\x7d"⟩ { s3 with lockHeld := false } := by
  unfold patchAndSave patchSyncState
  by_cases h : s.lockHeld = true <;> simp [h]

/-- What `fileManagerSyncState` names is the argument of `SyncListeners` in
the loop of `StartTenantFileManager`. -/
theorem fileManagerTick_sync (listen : ListenOracle) (store : StoreOracle)
    (file : FileContent) (s : Registry) :
    ∀ s1, fileManagerSyncState file s = some s1 →
      fileManagerTick listen store file s =
        match SaveTenantsToFile store (SyncListeners listen s1) with
        | Run.deadlock s2 => Run.deadlock s2
        | Run.done _ s2 => Run.done () s2 := by
  intro s1 h
  unfold fileManagerSyncState at h
  unfold fileManagerTick
  cases hl : LoadTenantsFromFile file s with
  | deadlock s0 => simp [hl] at h
  | done e s0 =>
    cases e with
    | some e0 => simp [hl] at h
    | none =>
      simp only [hl, Option.some.injEq] at h
      subst h
      rfl

/-- The call of `SyncListeners` in `handlePatchTenants` is made with the lock
held, and the lock is still held when `SyncListeners` returns. -/
theorem patchSyncState_locked (listen : ListenOracle) (s : Registry)
    (patchTenants : List Tenant) :
    ∀ s1, patchSyncState s patchTenants = some s1 →
      s1.lockHeld = true ∧ (SyncListeners listen s1).lockHeld = true := by
  intro s1 h
  unfold patchSyncState at h
  by_cases hl : s.lockHeld = true
  · simp [hl] at h
  · simp only [hl, Bool.false_eq_true, if_false, Option.some.injEq] at h
    subst h
    simp

/-- C17 (the code does not do what the claim says). For every registry state
in which the file manager task does not hold `TenantsLock` and every record
list read from the tenants file, the loop of `StartTenantFileManager` reaches
its call of `SyncListeners` in a state in which the task does not hold the
lock: `LoadTenantsFromFile` has released it on return, and `SyncListeners`
does not take it. -/
theorem C17_file_manager_syncs_without_lock (listen : ListenOracle) (s : Registry)
    (fileTenants : List Tenant) :
    ∃ s1, fileManagerSyncState (FileContent.records fileTenants) { s with lockHeld := false }
        = some s1 ∧
      s1.lockHeld = false ∧ (SyncListeners listen s1).lockHeld = false := by
  refine ⟨{ mergeTenants { s with lockHeld := true } fileTenants with lockHeld := false },
    ?_, rfl, ?_⟩
  · simp [fileManagerSyncState, LoadTenantsFromFile]
  · simp

/-! ## Termination and cleanup -/

/-- An iteration of the loop leaves the connection list of the tenant as it
is. -/
theorem handleByte_Connections (w : WriteOracle) (s : ConnState) (b : Nat) :
    (handleByte w s b).t.Connections = s.t.Connections := by
  unfold handleByte
  by_cases hS : b = s.t.StartByte
  · simp [hS]
  · by_cases hE : b = s.t.EndByte
    · have hne : ¬ s.t.EndByte = s.t.StartByte := hE ▸ hS
      by_cases hin : s.inMessage = true
      · by_cases hf : (w s.written.length
            (s.t.StartByte :: (s.buffer ++ [s.t.EndByte]))).failed = true
        · simp [hE, hne, hin, hf, logError]
        · simp [hE, hne, hin, hf]
      · simp [hE, hne, hin]
    · by_cases hin : s.inMessage = true <;> simp [hS, hE, hin]

theorem runBytes_Connections (w : WriteOracle) (bs : List Nat) :
    ∀ s : ConnState, (runBytes w s bs).t.Connections = s.t.Connections := by
  induction bs with
  | nil => intro s; rfl
  | cons b r ih =>
    intro s
    show (runBytes w (handleByte w s b) r).t.Connections = _
    rw [ih, handleByte_Connections]

/-- The loop goes through successful reads with `handleByte` and does not
return on them. -/
theorem connLoop_bytes (w : WriteOracle) (bs : List Nat) :
    ∀ (s : ConnState) (rest : List ReadResult),
      connLoop w s (bs.map ReadResult.byte ++ rest) = connLoop w (runBytes w s bs) rest := by
  induction bs with
  | nil => intro s rest; rfl
  | cons b r ih =>
    intro s rest
    show connLoop w (handleByte w s b) (r.map ReadResult.byte ++ rest) = _
    rw [ih]
    rfl

/-- Every sequence of read outcomes is a run of successful reads, followed by
nothing or by a first failed read. -/
theorem reads_split (reads : List ReadResult) :
    (∃ bs : List Nat, reads = bs.map ReadResult.byte) ∨
    (∃ (bs : List Nat) (rest : List ReadResult),
      reads = bs.map ReadResult.byte ++ ReadResult.eof :: rest) ∨
    (∃ (bs : List Nat) (rest : List ReadResult),
      reads = bs.map ReadResult.byte ++ ReadResult.error :: rest) := by
  induction reads with
  | nil => exact Or.inl ⟨[], rfl⟩
  | cons r rs ih =>
    cases r with
    | eof => exact Or.inr (Or.inl ⟨[], rs, rfl⟩)
    | error => exact Or.inr (Or.inr ⟨[], rs, rfl⟩)
    | byte b =>
      rcases ih with ⟨bs, h⟩ | ⟨bs, rest, h⟩ | ⟨bs, rest, h⟩
      · exact Or.inl ⟨b :: bs, by rw [h]; rfl⟩
      · exact Or.inr (Or.inl ⟨b :: bs, rest, by rw [h]; rfl⟩)
      · exact Or.inr (Or.inr ⟨b :: bs, rest, by rw [h]; rfl⟩)

/-- What `removeConnection` leaves: the other connections, in their order. -/
theorem removeConnection_spec (t : Tenant) (conn : Conn) :
    conn ∉ (removeConnection t conn).Connections ∧
    (removeConnection t conn).Connections = t.Connections.filter (fun c => decide (c ≠ conn)) ∧
    (∀ c, c ≠ conn → (c ∈ (removeConnection t conn).Connections ↔ c ∈ t.Connections)) ∧
    List.Sublist (removeConnection t conn).Connections t.Connections := by
  refine ⟨?_, rfl, ?_, ?_⟩
  · simp [removeConnection]
  · intro c hc
    simp [removeConnection, hc]
  · exact List.filter_sublist _

/-- The loop returns exactly when one of the reads fails. -/
theorem handleConnection_returns_iff (w : WriteOracle) (conn : Conn) (t : Tenant)
    (reads : List ReadResult) :
    (handleConnection w conn t reads).isSome = true ↔
      (ReadResult.eof ∈ reads ∨ ReadResult.error ∈ reads) := by
  unfold handleConnection
  rcases reads_split reads with ⟨bs, h⟩ | ⟨bs, rest, h⟩ | ⟨bs, rest, h⟩
  · subst h
    have h0 := connLoop_bytes w bs (initConn t) []
    rw [List.append_nil] at h0
    rw [h0]
    simp [connLoop]
  · subst h
    rw [connLoop_bytes]
    simp [connLoop]
  · subst h
    rw [connLoop_bytes]
    simp [connLoop]

/-- C21. Termination and cleanup: for every socket behaviour, connection,
tenant, run `bs` of successfully read bytes and whatever would be read later:
`handleConnection` does not return while the reads succeed (it returns exactly
when a read fails); at an end-of-stream after `bs` it returns with `Errors` as
the loop left it; at any other read error after `bs` it returns with one more
error; and on either exit the socket is closed, the connection does not occur
in the `Connections` of the tenant, and that list is the list on entry without
the connection, in its order. -/
theorem C21_termination_cleanup (w : WriteOracle) (conn : Conn) (t : Tenant)
    (bs : List Nat) (rest : List ReadResult) :
    handleConnection w conn t (bs.map ReadResult.byte) = none ∧
    (∀ reads, (handleConnection w conn t reads).isSome = true ↔
      (ReadResult.eof ∈ reads ∨ ReadResult.error ∈ reads)) ∧
    (∃ s, handleConnection w conn t (bs.map ReadResult.byte ++ ReadResult.eof :: rest)
        = some s ∧
      s.t.Errors = (runBytes w (initConn t) bs).t.Errors ∧
      s.dispatched = (runBytes w (initConn t) bs).dispatched ∧
      s.written = (runBytes w (initConn t) bs).written ∧
      s.closed = true ∧ conn ∉ s.t.Connections ∧
      s.t.Connections = t.Connections.filter (fun c => decide (c ≠ conn))) ∧
    (∃ s, handleConnection w conn t (bs.map ReadResult.byte ++ ReadResult.error :: rest)
        = some s ∧
      s.t.Errors = u64 ((runBytes w (initConn t) bs).t.Errors + 1) ∧
      s.dispatched = (runBytes w (initConn t) bs).dispatched ∧
      s.written = (runBytes w (initConn t) bs).written ∧
      s.closed = true ∧ conn ∉ s.t.Connections ∧
      s.t.Connections = t.Connections.filter (fun c => decide (c ≠ conn))) := by
  have hc : (runBytes w (initConn t) bs).t.Connections = t.Connections :=
    runBytes_Connections w bs (initConn t)
  refine ⟨?_, fun reads => handleConnection_returns_iff w conn t reads, ?_, ?_⟩
  · have h0 := connLoop_bytes w bs (initConn t) []
    rw [List.append_nil] at h0
    unfold handleConnection
    rw [h0]
    rfl
  · refine ⟨{ runBytes w (initConn t) bs with
        t := removeConnection (runBytes w (initConn t) bs).t conn, closed := true },
      ?_, rfl, rfl, rfl, rfl, (removeConnection_spec _ conn).1, ?_⟩
    · unfold handleConnection
      rw [connLoop_bytes]
      rfl
    · show ((runBytes w (initConn t) bs).t.Connections.filter _) = _
      rw [hc]
  · refine ⟨{ runBytes w (initConn t) bs with
        t := removeConnection (logError (runBytes w (initConn t) bs).t) conn,
        closed := true },
      ?_, rfl, rfl, rfl, rfl, (removeConnection_spec _ conn).1, ?_⟩
    · unfold handleConnection
      rw [connLoop_bytes]
      rfl
    · show ((runBytes w (initConn t) bs).t.Connections.filter _) = _
      rw [hc]

/-- Witness of C21: the connection 5 of the tenant with the connections 5 and
6 reads `2 9` and then fails: the connection 6 is left, and only the read error
is counted. -/
theorem C21_termination_cleanup_witness :
    handleConnection fullWrite ⟨5⟩ tenantConns ([2, 9].map ReadResult.byte) = none ∧
    (∃ s, handleConnection fullWrite ⟨5⟩ tenantConns
        ([2, 9].map ReadResult.byte ++ ReadResult.eof :: []) = some s ∧
      s.t.Errors = 0 ∧ s.t.Connections = [⟨6⟩]) ∧
    (∃ s, handleConnection fullWrite ⟨5⟩ tenantConns
        ([2, 9].map ReadResult.byte ++ ReadResult.error :: []) = some s ∧
      s.t.Errors = 1 ∧ s.t.Connections = [⟨6⟩]) := by
  obtain ⟨h1, _, ⟨s2, e2, a2, _, _, _, _, c2⟩, ⟨s3, e3, a3, _, _, _, _, c3⟩⟩ :=
    C21_termination_cleanup fullWrite ⟨5⟩ tenantConns [2, 9] []
  refine ⟨h1, ⟨s2, e2, ?_, ?_⟩, ⟨s3, e3, ?_, ?_⟩⟩
  · rw [a2]; decide
  · rw [c2]; decide
  · rw [a3]; decide
  · rw [c3]; decide

/-! ## Equal delimiters -/

/-- With equal delimiters an iteration never takes the EndByte branch: it
dispatches nothing, writes nothing and leaves `BytesSent` and `Errors` as they
are. -/
theorem handleByte_equal_delims (w : WriteOracle) (s : ConnState) (b : Nat)
    (heq : s.t.StartByte = s.t.EndByte) :
    (handleByte w s b).t.StartByte = (handleByte w s b).t.EndByte ∧
    (handleByte w s b).dispatched = s.dispatched ∧
    (handleByte w s b).written = s.written ∧
    (handleByte w s b).t.BytesSent = s.t.BytesSent ∧
    (handleByte w s b).t.Errors = s.t.Errors := by
  unfold handleByte
  by_cases hS : b = s.t.StartByte
  · simp [hS, heq]
  · have hE : ¬ b = s.t.EndByte := heq ▸ hS
    by_cases hin : s.inMessage = true <;> simp [hS, hE, hin, heq]

theorem runBytes_equal_delims (w : WriteOracle) (bs : List Nat) :
    ∀ s : ConnState, s.t.StartByte = s.t.EndByte →
      (runBytes w s bs).dispatched = s.dispatched ∧
      (runBytes w s bs).written = s.written ∧
      (runBytes w s bs).t.BytesSent = s.t.BytesSent ∧
      (runBytes w s bs).t.Errors = s.t.Errors := by
  induction bs with
  | nil => intro s _; exact ⟨rfl, rfl, rfl, rfl⟩
  | cons b r ih =>
    intro s heq
    obtain ⟨h0, h1, h2, h3, h4⟩ := handleByte_equal_delims w s b heq
    obtain ⟨k1, k2, k3, k4⟩ := ih (handleByte w s b) h0
    show (runBytes w (handleByte w s b) r).dispatched = _ ∧
      (runBytes w (handleByte w s b) r).written = _ ∧
      (runBytes w (handleByte w s b) r).t.BytesSent = _ ∧
      (runBytes w (handleByte w s b) r).t.Errors = _
    rw [k1, k2, k3, k4]
    exact ⟨h1, h2, h3, h4⟩

/-- C22. Equal delimiters never complete a frame: for every tenant whose
`StartByte` equals its `EndByte`, every socket behaviour and every input:
after every sequence of bytes the loop of `handleConnection` has dispatched no
message, written no echo and left `BytesSent` as it was; when
`handleConnection` returns, it has dispatched and written nothing; and in every
state the delimiter byte is handled as a StartByte: it empties the buffer and
puts the loop in a message. -/
theorem C22_equal_delimiters (w : WriteOracle) (conn : Conn) (t : Tenant)
    (heq : t.StartByte = t.EndByte) (bs : List Nat) (reads : List ReadResult) :
    (runBytes w (initConn t) bs).dispatched = [] ∧
    (runBytes w (initConn t) bs).written = [] ∧
    (runBytes w (initConn t) bs).t.BytesSent = t.BytesSent ∧
    (∀ s, handleConnection w conn t reads = some s → s.dispatched = [] ∧ s.written = []) ∧
    (∀ s : ConnState, s.t.StartByte = s.t.EndByte →
      handleByte w s s.t.EndByte =
        { s with t := { s.t with BytesReceived := u64 (s.t.BytesReceived + 1) },
                 buffer := [], inMessage := true }) := by
  have hrun : ∀ p : List Nat, (runBytes w (initConn t) p).dispatched = [] ∧
      (runBytes w (initConn t) p).written = [] ∧
      (runBytes w (initConn t) p).t.BytesSent = t.BytesSent := by
    intro p
    obtain ⟨k1, k2, k3, _⟩ := runBytes_equal_delims w p (initConn t) heq
    exact ⟨k1, k2, k3⟩
  refine ⟨(hrun bs).1, (hrun bs).2.1, (hrun bs).2.2, ?_, ?_⟩
  · intro s hs
    unfold handleConnection at hs
    rcases reads_split reads with ⟨p, h⟩ | ⟨p, rest, h⟩ | ⟨p, rest, h⟩
    · subst h
      have h0 := connLoop_bytes w p (initConn t) []
      rw [List.append_nil] at h0
      rw [h0] at hs
      simp [connLoop] at hs
    · subst h
      rw [connLoop_bytes] at hs
      simp only [connLoop, Option.map_some', Option.some.injEq] at hs
      subst hs
      exact ⟨(hrun p).1, (hrun p).2.1⟩
    · subst h
      rw [connLoop_bytes] at hs
      simp only [connLoop, Option.map_some', Option.some.injEq] at hs
      subst hs
      exact ⟨(hrun p).1, (hrun p).2.1⟩
  · intro s hs
    unfold handleByte
    simp [hs]

/-- Witness of C22: the tenant "B" created on port 5000 by a patch that sets
no delimiter has `StartByte = EndByte = 0`; after the bytes `0 7 0` nothing is
dispatched and nothing is written. -/
theorem C22_equal_delimiters_witness :
    (patchLoop registryA [patchNew]).Tenants.get "5000" = some patchNew ∧
    patchNew.StartByte = patchNew.EndByte ∧
    (runBytes fullWrite (initConn patchNew) [0, 7, 0]).dispatched = [] ∧
    (runBytes fullWrite (initConn patchNew) [0, 7, 0]).written = [] ∧
    (runBytes fullWrite (initConn patchNew) [0, 7, 0]).inMessage = true :=
  ⟨by decide, rfl,
    (C22_equal_delimiters fullWrite ⟨5⟩ patchNew rfl [0, 7, 0] []).1,
    (C22_equal_delimiters fullWrite ⟨5⟩ patchNew rfl [0, 7, 0] []).2.1,
    by decide⟩

end TcpSandbox
